import Mathlib

/-!
Verification of the message-classification and context-resolution core of the
happy_customer chatbot backend (`src/app/api/ai.ts` and the message-processing
route).  Strings are modelled as `List Char`; JavaScript regular-expression
searches are modelled by explicit scanning functions with the same first-match
semantics; `JSON.parse` is modelled by a fuel-based recursive-descent parser
over a `Json` value type (ASCII case folding; `\uXXXX` string escapes are not
modelled).  Fallible steps are modelled with `Option`/`Except`.
-/

/-- Character-by-character prefix test parameterised by a character
comparison, modelling an anchored pattern match at the head of a string. -/
def headMatch (eq : Char → Char → Bool) : List Char → List Char → Bool
  | [], _ => true
  | _ :: _, [] => false
  | p :: ps, c :: cs => eq p c && headMatch eq ps cs

/-- Substring search: does `pat` occur (under `eq`) anywhere in the text?
Models JavaScript `String.prototype.includes` (with `eq` the exact character
equality) and regex `test` for literal patterns. -/
def hasOcc (eq : Char → Char → Bool) (pat : List Char) : List Char → Bool
  | [] => headMatch eq pat []
  | c :: cs => headMatch eq pat (c :: cs) || hasOcc eq pat cs

/-- Exact character equality. -/
def eqExact (a b : Char) : Bool := a == b

/-- ASCII case-insensitive character equality (models a case-insensitive
regex over the ASCII pattern text used by the source). -/
def eqCI (a b : Char) : Bool := a.toLower == b.toLower

/-- `s.includes(pat)` for JavaScript strings. -/
def containsSub (pat s : List Char) : Bool := hasOcc eqExact pat s

/-- Global search-and-replace of every (non-overlapping, leftmost-first)
occurrence of `pat` by `rep`, modelling `String.prototype.replace` with a
global regex whose pattern is the literal `pat` compared by `eq`. -/
def replaceGen (eq : Char → Char → Bool) (pat rep : List Char) : List Char → List Char
  | [] => []
  | c :: cs =>
    if headMatch eq pat (c :: cs) && !pat.isEmpty then
      rep ++ replaceGen eq pat rep (List.drop (pat.length - 1) cs)
    else
      c :: replaceGen eq pat rep cs
termination_by s => s.length
decreasing_by
  · simp only [List.length_drop, List.length_cons]
    omega
  · simp only [List.length_cons]
    omega

/-- JavaScript whitespace test, modelled by the ASCII whitespace classes. -/
def isWS (c : Char) : Bool := c.isWhitespace

/-- Remove leading whitespace. -/
def ltrim (s : List Char) : List Char := s.dropWhile isWS

/-- Remove trailing whitespace. -/
def rtrim (s : List Char) : List Char := (s.reverse.dropWhile isWS).reverse

/-- `String.prototype.trim`. -/
def trimChars (s : List Char) : List Char := rtrim (ltrim s)

/-- `sanitizeInput` from `ai.ts`: replace every triple-backtick by three
apostrophes, replace every case-insensitive `system:` by `sys:`, then trim.
(The non-string input branch of the source returns the empty string and is
outside the `List Char` domain.) -/
def sanitizeInput (s : List Char) : List Char :=
  trimChars
    (replaceGen eqCI ("system:".toList) ("sys:".toList)
      (replaceGen eqExact ("```".toList) ("\x27\x27\x27".toList) s))

/-- Lowercasing of a JavaScript string, modelled by ASCII case folding. -/
def lowerStr (s : List Char) : List Char := s.map Char.toLower

/-- JSON values as produced by `JSON.parse`.  Numbers keep their source
text (their numeric value is never used by the code under verification,
only their truthiness). -/
inductive Json where
  | null : Json
  | bool (b : Bool) : Json
  | num (raw : List Char) : Json
  | str (s : List Char) : Json
  | arr (elems : List Json) : Json
  | obj (fields : List (List Char × Json)) : Json

/-- Does a JSON number literal denote zero?  True exactly when every digit
of its significand (the part before any exponent) is `0`. -/
def numIsZero (raw : List Char) : Bool :=
  (raw.takeWhile (fun c => !(c == 'e' || c == 'E'))).all
    (fun c => !c.isDigit || c == '0')

/-- JavaScript truthiness of a parsed JSON value. -/
def jsTruthy : Json → Bool
  | .null => false
  | .bool b => b
  | .num raw => !numIsZero raw
  | .str s => !s.isEmpty
  | .arr _ => true
  | .obj _ => true

/-- Is the value exactly the given string (JavaScript `===` against a
string literal)? -/
def isStrEq (j : Json) (s : List Char) : Bool :=
  match j with
  | .str t => t = s
  | _ => false

/-- Last-binding lookup in an association list; models property access on
an object built by `JSON.parse`, where a duplicated key keeps its last
value. -/
def lookupLast (pm : List (List Char × Json)) (k : List Char) : Option Json :=
  match pm with
  | [] => none
  | (k', v) :: rest =>
    match lookupLast rest k with
    | some w => some w
    | none => if k' = k then some v else none

/-- Property access `v[k]`, with `null` standing in for `undefined` on
missing keys and non-object values (both are falsy and compare unequal to
every string, which is all the code observes). -/
def jsGetD (v : Json) (k : List Char) : Json :=
  match v with
  | .obj kvs => (lookupLast kvs k).getD .null
  | _ => .null

/-- JSON whitespace. -/
def skipWs (s : List Char) : List Char :=
  s.dropWhile (fun c => c == ' ' || c == '\t' || c == '\n' || c == '\r')

/-- Decoding of a single-character JSON string escape.  `\uXXXX` escapes
are not modelled (the parser fails on them). -/
def escChar (e : Char) : Option Char :=
  if e == '"' then some '"'
  else if e == '\\' then some '\\'
  else if e == '/' then some '/'
  else if e == 'b' then some '\x08'
  else if e == 'f' then some '\x0c'
  else if e == 'n' then some '\n'
  else if e == 'r' then some '\r'
  else if e == 't' then some '\t'
  else none

/-- Body of a JSON string, after the opening quote.  Returns the decoded
string and the remaining input after the closing quote. -/
def parseStrBody : List Char → Option (List Char × List Char)
  | [] => none
  | c :: rest =>
    if c == '"' then some ([], rest)
    else if c == '\\' then
      match rest with
      | [] => none
      | e :: rest' =>
        match escChar e with
        | some d =>
          match parseStrBody rest' with
          | some (p, r) => some (d :: p, r)
          | none => none
        | none => none
    else if c.val < 32 then none
    else
      match parseStrBody rest with
      | some (p, r) => some (c :: p, r)
      | none => none

/-- The optional fraction part of a JSON number (raw text, rest). -/
def parseFrac (s : List Char) : List Char × List Char :=
  match s with
  | c :: rest =>
    if c == '.' then
      let ds := rest.takeWhile Char.isDigit
      if ds.isEmpty then ([], s) else ('.' :: ds, rest.drop ds.length)
    else ([], s)
  | [] => ([], s)

/-- The optional exponent part of a JSON number (raw text, rest). -/
def parseExp (s : List Char) : List Char × List Char :=
  match s with
  | e :: rest =>
    if e == 'e' || e == 'E' then
      let sr : List Char × List Char :=
        match rest with
        | c :: cs => if c == '+' || c == '-' then ([c], cs) else ([], rest)
        | [] => ([], rest)
      let ds := sr.2.takeWhile Char.isDigit
      if ds.isEmpty then ([], s) else (e :: (sr.1 ++ ds), sr.2.drop ds.length)
    else ([], s)
  | [] => ([], s)

/-- Digits of a JSON number after the integer part: optional fraction and
exponent, returned as raw text together with the rest of the input. -/
def parseNumTail (s : List Char) : List Char × List Char :=
  let f := parseFrac s
  let x := parseExp f.2
  (f.1 ++ x.1, x.2)

/-- The digits of a JSON number after an optional sign: a single `0` or a
non-zero-led digit run, then fraction/exponent (strict JSON grammar). -/
def parseNumBody (neg s1 : List Char) : Option (List Char × List Char) :=
  match s1 with
  | c :: rest =>
    if c == '0' then
      let t := parseNumTail rest
      some (neg ++ '0' :: t.1, t.2)
    else if c.isDigit then
      let ds := (c :: rest).takeWhile Char.isDigit
      let t := parseNumTail ((c :: rest).drop ds.length)
      some (neg ++ ds ++ t.1, t.2)
    else none
  | [] => none

/-- A JSON number literal (strict JSON grammar: no leading zeros, no bare
sign), returned as raw text. -/
def parseNumber (s : List Char) : Option (List Char × List Char) :=
  match s with
  | c :: rest => if c == '-' then parseNumBody ['-'] rest else parseNumBody [] (c :: rest)
  | [] => none

mutual

/-- Recursive-descent JSON value parser (fuel-based); expects no leading
whitespace, returns the value and the unconsumed input. -/
def parseVal : Nat → List Char → Option (Json × List Char)
  | 0, _ => none
  | fuel + 1, s =>
    match s with
    | [] => none
    | c :: rest =>
      if c == '"' then
        match parseStrBody rest with
        | some (p, r) => some (.str p, r)
        | none => none
      else if c == '\x7b' then
        match skipWs rest with
        | d :: r => if d == '\x7d' then some (.obj [], r) else parseObjMembers fuel (d :: r)
        | [] => none
      else if c == '[' then
        match skipWs rest with
        | d :: r => if d == ']' then some (.arr [], r) else parseArrElems fuel (d :: r)
        | [] => none
      else if c == 't' then
        if headMatch eqExact ("rue".toList) rest then some (.bool true, rest.drop 3) else none
      else if c == 'f' then
        if headMatch eqExact ("alse".toList) rest then some (.bool false, rest.drop 4) else none
      else if c == 'n' then
        if headMatch eqExact ("ull".toList) rest then some (.null, rest.drop 3) else none
      else
        match parseNumber (c :: rest) with
        | some (raw, r) => some (.num raw, r)
        | none => none

/-- One or more comma-separated array elements followed by `]`. -/
def parseArrElems : Nat → List Char → Option (Json × List Char)
  | 0, _ => none
  | fuel + 1, s =>
    match parseVal fuel s with
    | some (v, r) =>
      match skipWs r with
      | d :: r' =>
        if d == ',' then
          match parseArrElems fuel (skipWs r') with
          | some (.arr vs, r'') => some (.arr (v :: vs), r'')
          | _ => none
        else if d == ']' then some (.arr [v], r')
        else none
      | [] => none
    | none => none

/-- One or more comma-separated `"key": value` members followed by `}`. -/
def parseObjMembers : Nat → List Char → Option (Json × List Char)
  | 0, _ => none
  | fuel + 1, s =>
    match s with
    | c :: rest =>
      if c == '"' then
        match parseStrBody rest with
        | some (k, r) =>
          match skipWs r with
          | d :: r' =>
            if d == ':' then
              match parseVal fuel (skipWs r') with
              | some (v, r'') =>
                match skipWs r'' with
                | e :: r3 =>
                  if e == ',' then
                    match parseObjMembers fuel (skipWs r3) with
                    | some (.obj kvs, r4) => some (.obj ((k, v) :: kvs), r4)
                    | _ => none
                  else if e == '\x7d' then some (.obj [(k, v)], r3)
                  else none
                | [] => none
              | none => none
            else none
          | [] => none
        | none => none
      else none
    | [] => none

end

/-- `JSON.parse`: parse a complete JSON document (surrounding whitespace
allowed, nothing else may remain). -/
def parseJson (s : List Char) : Option Json :=
  match parseVal (2 * s.length + 4) (skipWs s) with
  | some (v, rest) => if skipWs rest = [] then some v else none
  | none => none

/-- A conversation turn (role + content), both plain strings. -/
structure Turn where
  role : List Char
  content : List Char

/-- The runtime parameter object of a classification: a JSON object body.
Reads go through `getParamStr`; a duplicated key reads as its last value,
as for objects built by `JSON.parse`. -/
abbrev ParamMap := List (List Char × Json)

/-- Read a string-valued parameter; missing keys and non-string values
read as the empty string (a non-string value in a string slot would make
the JavaScript code throw into the surrounding catch; such values are
treated as absent here). -/
def getParamStr (pm : ParamMap) (k : List Char) : List Char :=
  match lookupLast pm k with
  | some (.str v) => v
  | _ => []

/-- Read a parameter as a JSON value (missing keys read as `null`). -/
def getParamVal (pm : ParamMap) (k : List Char) : Json :=
  (lookupLast pm k).getD .null

/-- Property assignment `pm[k] = v`.  Appending preserves the last-binding
read semantics used throughout. -/
def setParam (pm : ParamMap) (k : List Char) (v : Json) : ParamMap :=
  pm ++ [(k, v)]

/-- Object spread `{...prev, ...cur}`: every key of either object, with
`cur` winning on collision (see `getParamStr_mergeParams`). -/
def mergeParams (prev cur : ParamMap) : ParamMap := prev ++ cur

/-- The classification record manipulated by the resolver.  `intent` and
`language` are kept as raw JSON values because they come straight out of
`JSON.parse` of the model output. -/
structure ClassifiedMessage where
  intent : Json
  parameters : ParamMap
  language : Json

/-- The parameter object of `getDefaultClassification` (also the reset
object literal of `classifyNewRequest`, which repeats it verbatim). -/
def defaultParameters : ParamMap :=
  [ ("order_number".toList, .str []),
    ("email".toList, .str []),
    ("product_handle".toList, .str []),
    ("new_delivery_info".toList, .str []),
    ("delivery_status".toList, .str []),
    ("tracking_number".toList, .str []),
    ("delivery_address_confirmed".toList, .bool false),
    ("return_type".toList, .str []),
    ("returns_website_sent".toList, .bool false),
    ("product_name".toList, .str []),
    ("size_query".toList, .str []),
    ("update_type".toList, .str []),
    ("height".toList, .str []),
    ("fit".toList, .str []) ]

/-- `getDefaultClassification` from `ai.ts`. -/
def getDefaultClassification : ClassifiedMessage :=
  { intent := .str ("other-general".toList),
    parameters := defaultParameters,
    language := .str ("English".toList) }

/-- `classification.parameters.order_number || classification.parameters.email || ""`:
the first non-empty of the two string slots. -/
def userMessageOf (pm : ParamMap) : List Char :=
  if getParamStr pm ("order_number".toList) ≠ [] then getParamStr pm ("order_number".toList)
  else if getParamStr pm ("email".toList) ≠ [] then getParamStr pm ("email".toList)
  else []

/-- `/\d{4,}/.test(s)`: four consecutive ASCII digits occur somewhere. -/
def hasDigitRun4 : List Char → Bool
  | [] => false
  | a :: rest =>
    (match rest with
     | b :: c :: d :: _ => a.isDigit && b.isDigit && c.isDigit && d.isDigit
     | _ => false)
    || hasDigitRun4 rest

/-- Character class `[a-zA-Z0-9._%+-]` (local part of the email pattern). -/
def emailLocalChar (c : Char) : Bool :=
  c.isAlphanum || c == '.' || c == '_' || c == '%' || c == '+' || c == '-'

/-- Character class `[a-zA-Z0-9.-]` (domain part of the email pattern). -/
def emailDomainChar (c : Char) : Bool :=
  c.isAlphanum || c == '.' || c == '-'

/-- Backtracking step for the email pattern after the `@`: try the domain
run length `k` downwards, requiring a literal dot and at least two ASCII
letters after it; returns `domain ++ "." ++ letters` of the match. -/
def emailTail (rest : List Char) : Nat → Option (List Char)
  | 0 => none
  | k + 1 =>
    match rest.drop (k + 1) with
    | c :: t =>
      if c == '.' then
        let a := t.takeWhile Char.isAlpha
        if a.length ≥ 2 then some (rest.take (k + 1) ++ '.' :: a) else emailTail rest k
      else emailTail rest k
    | [] => emailTail rest k

/-- Anchored match of `[a-zA-Z0-9._%+-]+@[a-zA-Z0-9.-]+\.[a-zA-Z]{2,}`
starting at the head of `s`, with the greedy/backtracking semantics of the
JavaScript engine; returns the matched text. -/
def emailMatchAt (s : List Char) : Option (List Char) :=
  let r1 := s.takeWhile emailLocalChar
  if r1.isEmpty then none
  else
    match s.drop r1.length with
    | c :: rest =>
      if c == '@' then
        match emailTail rest (rest.takeWhile emailDomainChar).length with
        | some suffix => some (r1 ++ '@' :: suffix)
        | none => none
      else none
    | [] => none

/-- First (leftmost) match of the email pattern in `s`
(`String.prototype.match` returning `match[0]`). -/
def firstEmail : List Char → Option (List Char)
  | [] => none
  | c :: cs =>
    match emailMatchAt (c :: cs) with
    | some m => some m
    | none => firstEmail cs

/-- `.test` of the email pattern. -/
def emailTest (s : List Char) : Bool := (firstEmail s).isSome

/-- First match of `/#(\d{4,})/`, returning the captured digit run
(greedy, so the maximal run following the `#`). -/
def findOrderNumber : List Char → Option (List Char)
  | [] => none
  | c :: cs =>
    if c == '#' then
      let run := cs.takeWhile Char.isDigit
      if run.length ≥ 4 then some run else findOrderNumber cs
    else findOrderNumber cs

/-- Most recent turn whose role is `system` or `assistant`
(`[...context].reverse().find(...)`). -/
def lastSystemTurn (ctx : List Turn) : Option Turn :=
  ctx.reverse.find? (fun t => t.role = ("system".toList) ∨ t.role = ("assistant".toList))

/-- `isFollowUpResponse` from `ai.ts`: the last system/assistant turn
solicited an order number or an email, and the freshly extracted
order-number/email text provides one. -/
def isFollowUpResponse (c : ClassifiedMessage) (ctx : List Turn) : Bool :=
  match lastSystemTurn ctx with
  | none => false
  | some t =>
    let systemContent := lowerStr t.content
    let userMessage := userMessageOf c.parameters
    let askedForOrderNumber :=
      containsSub ("número de pedido".toList) systemContent ||
      containsSub ("order number".toList) systemContent ||
      containsSub ("#".toList) systemContent
    let askedForEmail :=
      containsSub ("email".toList) systemContent ||
      containsSub ("correo".toList) systemContent
    let providedOrderNumber :=
      containsSub ("#".toList) userMessage || hasDigitRun4 userMessage
    let providedEmail := emailTest userMessage
    (askedForOrderNumber && providedOrderNumber) || (askedForEmail && providedEmail)

/-- The fresh-start phrase list of `isNewRequest`. -/
def newRequestPhrases : List (List Char) :=
  [ "otro pedido".toList, "otra orden".toList, "otra cosa".toList,
    "algo más".toList, "quiero".toList, "necesito".toList, "tengo".toList,
    "buscar".toList,
    "another order".toList, "something else".toList, "want to".toList,
    "need to".toList, "have".toList, "find".toList, "track".toList ]

/-- `isNewRequest` from `ai.ts`: the extracted order-number/email text
contains a fresh-start phrase and the last system/assistant turn reads as
a conversation conclusion. -/
def isNewRequest (c : ClassifiedMessage) (ctx : List Turn) : Bool :=
  let lastUserMessage := userMessageOf c.parameters
  let containsNewRequestPhrase :=
    newRequestPhrases.any (fun p => containsSub p (lowerStr lastUserMessage))
  match lastSystemTurn ctx with
  | none => false
  | some t =>
    let sc := lowerStr t.content
    let wasConcludingPreviousRequest :=
      containsSub ("que tengas".toList) sc ||
      containsSub ("have a great".toList) sc ||
      containsSub ("gracias".toList) sc ||
      containsSub ("thank you".toList) sc ||
      (containsSub ("pedido".toList) sc &&
        (containsSub ("número de seguimiento".toList) sc ||
         containsSub ("tracking number".toList) sc)) ||
      (containsSub ("devolución".toList) sc && containsSub ("procedimiento".toList) sc) ||
      (containsSub ("return".toList) sc && containsSub ("procedure".toList) sc) ||
      (containsSub ("talla".toList) sc && containsSub ("recomendación".toList) sc) ||
      (containsSub ("size".toList) sc && containsSub ("recommendation".toList) sc)
    containsNewRequestPhrase && wasConcludingPreviousRequest

/-- The keyword chain of `classifyNewRequest`, over the lowercased
extracted order-number/email text (the source lowercases the text at each
test). -/
def newRequestIntent (u : List Char) : List Char :=
  if containsSub ("pedido".toList) u &&
       (containsSub ("localizar".toList) u || containsSub ("donde".toList) u ||
        containsSub ("buscar".toList) u || containsSub ("track".toList) u ||
        containsSub ("where".toList) u || containsSub ("find".toList) u) then
      "order_tracking".toList
    else if containsSub ("devolver".toList) u || containsSub ("cambiar".toList) u ||
            containsSub ("return".toList) u || containsSub ("exchange".toList) u ||
            containsSub ("devolución".toList) u || containsSub ("cambio".toList) u then
      "returns_exchange".toList
    else if containsSub ("talla".toList) u || containsSub ("tamaño".toList) u ||
            containsSub ("size".toList) u || containsSub ("fit".toList) u ||
            containsSub ("medida".toList) u then
      "product_sizing".toList
    else if containsSub ("disponible".toList) u || containsSub ("stock".toList) u ||
            containsSub ("available".toList) u || containsSub ("cuando".toList) u ||
            containsSub ("when".toList) u then
      "restock".toList
    else if containsSub ("descuento".toList) u || containsSub ("promo".toList) u ||
            containsSub ("discount".toList) u || containsSub ("offer".toList) u ||
            containsSub ("código".toList) u || containsSub ("code".toList) u then
      "promo_code".toList
    else if containsSub ("factura".toList) u || containsSub ("recibo".toList) u ||
            containsSub ("invoice".toList) u || containsSub ("receipt".toList) u then
      "invoice_request".toList
    else if containsSub ("no he recibido".toList) u || containsSub ("no llega".toList) u ||
            containsSub ("haven\x27t received".toList) u ||
            containsSub ("not arrived".toList) u ||
            containsSub ("problema".toList) u || containsSub ("problem".toList) u then
      "delivery_issue".toList
    else if containsSub ("cambiar dirección".toList) u ||
            containsSub ("nueva dirección".toList) u ||
            containsSub ("change address".toList) u ||
            containsSub ("new address".toList) u ||
            containsSub ("dirección".toList) u || containsSub ("address".toList) u then
      "change_delivery".toList
    else if containsSub ("actualizar pedido".toList) u ||
            containsSub ("modificar pedido".toList) u ||
            containsSub ("update order".toList) u ||
            containsSub ("modify order".toList) u ||
            containsSub ("cambiar pedido".toList) u ||
            containsSub ("change order".toList) u then
      "update_order".toList
    else if containsSub ("pedido".toList) u || containsSub ("order".toList) u then
      "other-order".toList
    else
      "other-general".toList

/-- `classifyNewRequest` from `ai.ts`: reset all parameters to the default
object literal and re-derive the intent by the keyword chain over the
extracted order-number/email text. -/
def classifyNewRequest (c : ClassifiedMessage) : ClassifiedMessage :=
  { c with parameters := defaultParameters,
           intent := .str (newRequestIntent (lowerStr (userMessageOf c.parameters))) }

/-- Body of `inheritPreviousIntent`, walking the reversed context: the
first assistant turn whose content contains `"intent"` and parses as JSON
with a truthy intent different from `other-general` supplies the inherited
intent, and its parameters are spread under the current ones. -/
def inheritAux (c : ClassifiedMessage) : List Turn → ClassifiedMessage
  | [] => c
  | t :: rest =>
    if t.role = ("assistant".toList) ∧ containsSub ("intent".toList) t.content then
      match parseJson t.content with
      | some v =>
        let pi := jsGetD v ("intent".toList)
        if jsTruthy pi ∧ ¬ isStrEq pi ("other-general".toList) then
          { c with intent := pi,
                   parameters :=
                     mergeParams (match jsGetD v ("parameters".toList) with
                                  | .obj kvs => kvs
                                  | _ => []) c.parameters }
        else inheritAux c rest
      | none => inheritAux c rest
    else inheritAux c rest

/-- `inheritPreviousIntent` from `ai.ts` (its backwards `for` loop walks
from the end of the context; a parse failure skips the turn). -/
def inheritPreviousIntent (c : ClassifiedMessage) (ctx : List Turn) : ClassifiedMessage :=
  inheritAux c ctx.reverse

/-- Capture of the lazy group in `/\[here\]\((https:\/\/.*?)\)/` once the
literal prefix has been consumed: characters up to the first `)`, failing
if a line break intervenes (a dot does not match line terminators). -/
def captureToParen : List Char → Option (List Char)
  | [] => none
  | c :: cs =>
    if c == ')' then some []
    else if c == '\n' || c == '\r' then none
    else
      match captureToParen cs with
      | some u => some (c :: u)
      | none => none

/-- First match of `/\[here\]\((https:\/\/.*?)\)/` in `s`, returning the
captured URL. -/
def findTrackingUrl : List Char → Option (List Char)
  | [] => none
  | c :: cs =>
    if headMatch eqExact ("[here](https://".toList) (c :: cs) then
      match captureToParen (List.drop 15 (c :: cs)) with
      | some u => some ("https://".toList ++ u)
      | none => findTrackingUrl cs
    else findTrackingUrl cs

/-- `String.prototype.split("/")`. -/
def splitSlash : List Char → List (List Char)
  | [] => [[]]
  | c :: rest =>
    if c == '/' then [] :: splitSlash rest
    else
      match splitSlash rest with
      | [] => [[c]]
      | seg :: segs => (c :: seg) :: segs

/-- `/^\d+$/.test(part)`. -/
def allDigits1 (part : List Char) : Bool :=
  !part.isEmpty && part.all Char.isDigit

/-- `.split("/").find(part => /^\d+$/.test(part))`: the first purely
numeric slash-separated segment of the URL. -/
def firstNumericSegment (url : List Char) : Option (List Char) :=
  (splitSlash url).find? allDigits1

/-- The scanning loop of `extractTrackingFromContext`: the first turn
whose matched link URL yields a numeric segment supplies the tracking
number; turns whose link has no numeric segment are skipped. -/
def trackingScan : List Turn → Option (List Char)
  | [] => none
  | t :: rest =>
    match findTrackingUrl t.content with
    | some url =>
      match firstNumericSegment url with
      | some n => some n
      | none => trackingScan rest
    | none => trackingScan rest

/-- `extractTrackingFromContext` from `ai.ts`. -/
def extractTrackingFromContext (c : ClassifiedMessage) (ctx : List Turn) : ClassifiedMessage :=
  match trackingScan ctx with
  | some n => { c with parameters := setParam c.parameters ("tracking_number".toList) (.str n) }
  | none => c

/-- One turn of the backfill: fill a still-empty `order_number` from the
turn's first `#<4+ digits>` match. -/
def fillOrderStep (p : ParamMap) (content : List Char) : ParamMap :=
  if getParamStr p ("order_number".toList) = [] then
    match findOrderNumber content with
    | some d => setParam p ("order_number".toList) (.str d)
    | none => p
  else p

/-- One turn of the backfill: fill a still-empty `email` from the turn's
first email-pattern match. -/
def fillEmailStep (p : ParamMap) (content : List Char) : ParamMap :=
  if getParamStr p ("email".toList) = [] then
    match firstEmail content with
    | some e => setParam p ("email".toList) (.str e)
    | none => p
  else p

/-- The per-turn filling loop of `extractOrderInfoFromContext`: only user
turns are inspected, in original order; each still-empty slot takes the
first pattern match; the loop breaks once both slots are non-empty. -/
def fillLoop (p : ParamMap) : List Turn → ParamMap
  | [] => p
  | t :: rest =>
    if t.role = ("user".toList) then
      let p2 := fillEmailStep (fillOrderStep p t.content) t.content
      if getParamStr p2 ("order_number".toList) ≠ [] ∧ getParamStr p2 ("email".toList) ≠ [] then p2
      else fillLoop p2 rest
    else fillLoop p rest

/-- `extractOrderInfoFromContext` from `ai.ts`. -/
def extractOrderInfoFromContext (c : ClassifiedMessage) (ctx : List Turn) : ClassifiedMessage :=
  if getParamStr c.parameters ("order_number".toList) = [] ∨
     getParamStr c.parameters ("email".toList) = [] then
    { c with parameters := fillLoop c.parameters ctx }
  else c

/-- The branch phase of `enrichClassification`: follow-up inheritance,
else new-request reclassification, else the `other-general` rescue. -/
def resolveIntentPhase (c : ClassifiedMessage) (ctx : List Turn) : ClassifiedMessage :=
  if isFollowUpResponse c ctx then inheritPreviousIntent c ctx
  else if isNewRequest c ctx then classifyNewRequest c
  else if isStrEq c.intent ("other-general".toList) then inheritPreviousIntent c ctx
  else c

/-- The phases of `enrichClassification` that follow the branch phase:
the delivery-issue tracking extraction, the returns-website flag, and the
order-number/email backfill. -/
def enrichPost (url : List Char) (c1 : ClassifiedMessage) (ctx : List Turn) :
    ClassifiedMessage :=
  let c2 :=
    if isStrEq c1.intent ("delivery_issue".toList) then extractTrackingFromContext c1 ctx
    else c1
  let sent := Json.bool (ctx.any (fun t => containsSub url t.content))
  let c3 :=
    if isStrEq c2.intent ("returns_exchange".toList) then
      { c2 with parameters := setParam c2.parameters ("returns_website_sent".toList) sent }
    else c2
  extractOrderInfoFromContext c3 ctx

/-- `enrichClassification` from `ai.ts`, parameterised by the configured
returns-portal URL.  An empty context leaves the classification untouched
(the source guards on `context?.length`). -/
def enrichClassification (url : List Char) (c : ClassifiedMessage) (ctx : List Turn) :
    ClassifiedMessage :=
  if ctx.isEmpty then c
  else enrichPost url (resolveIntentPhase c ctx) ctx

/-- Outcome of the model call behind the classifier: either a failure
(network error, non-retryable status, or retries exhausted — all of which
surface as a thrown error) or the text of the first choice. -/
inductive LLMOutcome where
  | fail : LLMOutcome
  | ok (content : List Char) : LLMOutcome

/-- The greedy `/\{[\s\S]*\}/` rescue of `classifyMessage`: the substring
from the first opening brace to the last closing brace, if that span is
non-degenerate. -/
def extractBraces (s : List Char) : Option (List Char) :=
  let t := s.dropWhile (fun c => !(c == '\x7b'))
  let r := t.reverse.dropWhile (fun c => !(c == '\x7d'))
  if r.isEmpty then none else some r.reverse

/-- The parse pipeline of `classifyMessage`: `JSON.parse`, then the brace
rescue (a second parse failure there throws into the surrounding catch,
which yields the same `none`). -/
def parseOrExtract (content : List Char) : Option Json :=
  match parseJson content with
  | some v => some v
  | none =>
    match extractBraces content with
    | some sub => parseJson sub
    | none => none

/-- Building the typed classification record from the parsed JSON value. -/
def mkClassified (v : Json) : ClassifiedMessage :=
  { intent := jsGetD v ("intent".toList),
    parameters :=
      match jsGetD v ("parameters".toList) with
      | .obj kvs => kvs
      | _ => [],
    language := jsGetD v ("language".toList) }

/-- The structural validation of `classifyMessage`: the parsed value and
its `intent` and `parameters` properties must all be truthy. -/
def validClassification (v : Json) : Bool :=
  jsTruthy v && jsTruthy (jsGetD v ("intent".toList)) &&
    jsTruthy (jsGetD v ("parameters".toList))

/-- Sanitisation of the optional context (`context?.map(...)` with both
role and content sanitised); an absent context behaves as the empty list
downstream. -/
def sanitizeCtx (ctx : Option (List Turn)) : List Turn :=
  (ctx.getD []).map (fun t => { role := sanitizeInput t.role, content := sanitizeInput t.content })

/-- `classifyMessage` from `ai.ts`.  The model call is abstracted by the
`LLMOutcome` argument; every failure path degrades to the default
classification (the function is total, so it never throws). -/
def classifyMessage (llm : LLMOutcome) (url : List Char) (message : List Char)
    (context : Option (List Turn)) : ClassifiedMessage :=
  if message = [] then getDefaultClassification
  else
    match llm with
    | .fail => getDefaultClassification
    | .ok content =>
      match parseOrExtract content with
      | none => getDefaultClassification
      | some v =>
        if validClassification v then
          enrichClassification url (mkClassified v) (sanitizeCtx context)
        else getDefaultClassification

/-- Modelled from the spec: `getLanguageSpecificResponse` (imported from
`./intents/utils`, not part of the provided sources) picks the Spanish
variant for `"Spanish"` and the English variant otherwise. -/
def getLanguageSpecificResponse (es en : List Char) (language : List Char) : List Char :=
  if language = ("Spanish".toList) then es else en

/-- Modelled from the spec: the cached Spanish conversation-end reply from
`commonResponses` (`./utils/cache`, not part of the provided sources; the
spec fixes only its existence, not its wording). -/
def conversationEndEs : List Char := "¡Gracias a ti! Que tengas un buen día 😊".toList

/-- Modelled from the spec: the cached English conversation-end reply. -/
def conversationEndEn : List Char := "Thank you! Have a great day 😊".toList

/-- Modelled from the spec: the cached Spanish error reply. -/
def errorResponseEs : List Char := "Lo siento, ha ocurrido un error.".toList

/-- Modelled from the spec: the cached English error reply. -/
def errorResponseEn : List Char := "Sorry, an error occurred.".toList

/-- `language || "English"`. -/
def langOrDefault (language : Option (List Char)) : List Char :=
  match language with
  | some s => if s = [] then "English".toList else s
  | none => "English".toList

/-- `generateFinalAnswer` from `ai.ts`.  The `conversation_end` intent is
answered from the cache before any validation or model call; an empty
intent throws; otherwise the model is called (its prompt construction does
not affect control flow) and a failure degrades to the cached error
reply. -/
def generateFinalAnswer (llm : LLMOutcome) (intent : List Char) (_parameters : ParamMap)
    (_shopifyData : Json) (_userMessage : List Char) (_context : List Turn)
    (language : Option (List Char)) (_sizeCharts : Option (List Char)) :
    Except (List Char) (List Char) :=
  if intent = ("conversation_end".toList) then
    .ok (getLanguageSpecificResponse conversationEndEs conversationEndEn (langOrDefault language))
  else if intent = [] then
    .error ("Invalid intent".toList)
  else
    match llm with
    | .ok answer => .ok answer
    | .fail =>
      .ok (getLanguageSpecificResponse errorResponseEs errorResponseEn (langOrDefault language))

/-- Shape of a `validateAddress` result. -/
structure AddressValidationResult where
  formattedAddress : List Char
  multipleCandidates : Bool
  addressCandidates : List (List Char)
deriving DecidableEq

/-- The all-empty / invalid result shape. -/
def emptyAddressResult : AddressValidationResult :=
  { formattedAddress := [], multipleCandidates := false, addressCandidates := [] }

/-- Outcome of the geocoding call: an HTTP-level failure (non-ok response
or unparsable body, both of which throw inside the `try`), or a parsed
body with its `status` field and the `formatted_address` of each
candidate. -/
inductive GeoOutcome where
  | fetchFail : GeoOutcome
  | ok (status : List Char) (candidates : List (List Char)) : GeoOutcome

/-- The `try` block of `validateAddress`: a non-ok response and a
`REQUEST_DENIED` status both throw; otherwise the candidate list is
normalised into the result shape. -/
def validateAddressTry (g : GeoOutcome) : Except (List Char) AddressValidationResult :=
  match g with
  | .fetchFail => .error ("Failed to validate address with Google API".toList)
  | .ok status candidates =>
    if status = ("REQUEST_DENIED".toList) then
      .error ("Google Maps API request denied".toList)
    else
      .ok { formattedAddress := (candidates.head?).getD [],
            multipleCandidates := decide (candidates.length > 1),
            addressCandidates := candidates }

/-- `validateAddress` from `ai.ts`: a falsy address short-circuits to the
empty shape; every error of the `try` block — including the
`REQUEST_DENIED` throw, which is raised inside that same block — is caught
by its own `catch`, which returns the empty shape.  The function always
returns a well-formed result. -/
def validateAddress (g : GeoOutcome) (address : List Char) : AddressValidationResult :=
  if address = [] then emptyAddressResult
  else
    match validateAddressTry g with
    | .ok r => r
    | .error _ => emptyAddressResult

/-- The canned request-for-information reply of the `other-order` branch
of the message-processing route (`intentHandler` in the POST handler). -/
def noOrderInfoText (language : List Char) : List Char :=
  if language = ("Spanish".toList) then
    "Para ayudarte mejor con tu consulta sobre el pedido, necesito el número de pedido (tipo #12345) y tu email 😊".toList
  else
    "To better help you with your order-related query, I need your order number (like #12345) and email 😊".toList

/-- Effect description of one dispatch of the route-level `intentHandler`:
either an immediate canned reply (no commerce fetch, no model call), a
delegation to a named intent handler, a commerce fetch followed by the
answer generator, or a direct answer-generator call with no data. -/
inductive HandlerAction where
  | respond (text : List Char) : HandlerAction
  | delegate (handler : List Char) : HandlerAction
  | fetchOrderThenGenerate (orderNumber email : List Char) : HandlerAction
  | generateDirect : HandlerAction
deriving DecidableEq

/-- The `switch (intent)` dispatch of the message-processing route.  The
`other-order` case requires both the order number and the email before it
fetches order data and calls the answer generator. -/
def intentHandler (intent : Json) (parameters : ParamMap) (language : List Char) :
    HandlerAction :=
  if isStrEq intent ("order_tracking".toList) then .delegate ("handleOrderTracking".toList)
  else if isStrEq intent ("returns_exchange".toList) then .delegate ("handleReturnsExchange".toList)
  else if isStrEq intent ("delivery_issue".toList) then .delegate ("handleDeliveryIssue".toList)
  else if isStrEq intent ("change_delivery".toList) then .delegate ("handleChangeDelivery".toList)
  else if isStrEq intent ("product_sizing".toList) then .delegate ("handleProductInquiry".toList)
  else if isStrEq intent ("update_order".toList) then .delegate ("handleUpdateOrder".toList)
  else if isStrEq intent ("restock".toList) then .delegate ("handleProductInquiryRestock".toList)
  else if isStrEq intent ("promo_code".toList) then .delegate ("handlePromoCode".toList)
  else if isStrEq intent ("invoice_request".toList) then .delegate ("handleInvoiceRequest".toList)
  else if isStrEq intent ("other-order".toList) then
    if getParamStr parameters ("order_number".toList) = [] ∨
       getParamStr parameters ("email".toList) = [] then
      .respond (noOrderInfoText language)
    else
      .fetchOrderThenGenerate (getParamStr parameters ("order_number".toList))
        (getParamStr parameters ("email".toList))
  else .generateDirect

/-- Spec-side qualifying test for intent inheritance (claim C1): an
assistant turn whose content parses as JSON with a truthy intent different
from `"other-general"`; yields that intent and the turn's parameter
object. -/
def qualifySpec (t : Turn) : Option (Json × ParamMap) :=
  if t.role = ("assistant".toList) then
    match parseJson t.content with
    | some v =>
      let pi := jsGetD v ("intent".toList)
      if jsTruthy pi ∧ ¬ isStrEq pi ("other-general".toList) then
        some (pi, match jsGetD v ("parameters".toList) with
                  | .obj kvs => kvs
                  | _ => [])
      else none
    | none => none
  else none

/-- The nearest (most recent) qualifying prior assistant turn. -/
def nearestQualifying (ctx : List Turn) : Option (Json × ParamMap) :=
  ctx.reverse.findSome? qualifySpec

/-- Spec-side decision table for the new-request keyword matching (claim
C2): ordered `(condition, intent)` pairs, first match wins. -/
def keywordGroups (u : List Char) : List (Bool × List Char) :=
  [ (containsSub ("pedido".toList) u &&
       (containsSub ("localizar".toList) u || containsSub ("donde".toList) u ||
        containsSub ("buscar".toList) u || containsSub ("track".toList) u ||
        containsSub ("where".toList) u || containsSub ("find".toList) u),
     "order_tracking".toList),
    (containsSub ("devolver".toList) u || containsSub ("cambiar".toList) u ||
       containsSub ("return".toList) u || containsSub ("exchange".toList) u ||
       containsSub ("devolución".toList) u || containsSub ("cambio".toList) u,
     "returns_exchange".toList),
    (containsSub ("talla".toList) u || containsSub ("tamaño".toList) u ||
       containsSub ("size".toList) u || containsSub ("fit".toList) u ||
       containsSub ("medida".toList) u,
     "product_sizing".toList),
    (containsSub ("disponible".toList) u || containsSub ("stock".toList) u ||
       containsSub ("available".toList) u || containsSub ("cuando".toList) u ||
       containsSub ("when".toList) u,
     "restock".toList),
    (containsSub ("descuento".toList) u || containsSub ("promo".toList) u ||
       containsSub ("discount".toList) u || containsSub ("offer".toList) u ||
       containsSub ("código".toList) u || containsSub ("code".toList) u,
     "promo_code".toList),
    (containsSub ("factura".toList) u || containsSub ("recibo".toList) u ||
       containsSub ("invoice".toList) u || containsSub ("receipt".toList) u,
     "invoice_request".toList),
    (containsSub ("no he recibido".toList) u || containsSub ("no llega".toList) u ||
       containsSub ("haven\x27t received".toList) u || containsSub ("not arrived".toList) u ||
       containsSub ("problema".toList) u || containsSub ("problem".toList) u,
     "delivery_issue".toList),
    (containsSub ("cambiar dirección".toList) u || containsSub ("nueva dirección".toList) u ||
       containsSub ("change address".toList) u || containsSub ("new address".toList) u ||
       containsSub ("dirección".toList) u || containsSub ("address".toList) u,
     "change_delivery".toList),
    (containsSub ("actualizar pedido".toList) u || containsSub ("modificar pedido".toList) u ||
       containsSub ("update order".toList) u || containsSub ("modify order".toList) u ||
       containsSub ("cambiar pedido".toList) u || containsSub ("change order".toList) u,
     "update_order".toList) ]

/-- Spec-side intent derivation for a new request (claim C2): the first
matching keyword group wins; the fallback is `other-order` when
`pedido`/`order` occurs and `other-general` otherwise.  The argument is
the already-lowercased extracted text. -/
def tableIntent (u : List Char) : List Char :=
  match (keywordGroups u).find? (fun g => g.1) with
  | some g => g.2
  | none =>
    if containsSub ("pedido".toList) u || containsSub ("order".toList) u then
      "other-order".toList
    else "other-general".toList

/-- Contents of the user-authored turns, in original order. -/
def userContents (ctx : List Turn) : List (List Char) :=
  (ctx.filter (fun t => t.role = ("user".toList))).map Turn.content

/-- First order-number match across the user-authored turns (claim C4). -/
def firstOrderIn (ctx : List Turn) : Option (List Char) :=
  (userContents ctx).findSome? findOrderNumber

/-- First email match across the user-authored turns (claim C4). -/
def firstEmailIn (ctx : List Turn) : Option (List Char) :=
  (userContents ctx).findSome? firstEmail

/-- Spec-side formulation of the tracking scan (claim C5): the first turn
whose matched markdown link yields a purely numeric segment. -/
def trackSpec (ctx : List Turn) : Option (List Char) :=
  ctx.findSome? (fun t => (findTrackingUrl t.content).bind firstNumericSegment)

/-- The trailing path segment of a URL (claim C5 speaks of the trailing
purely-numeric path segment). -/
def lastSegment (url : List Char) : Option (List Char) :=
  (splitSlash url).getLast?

/-- Spec-side classification pipeline without any context resolution
(claim C10): what `classifyMessage` produces when no enrichment runs. -/
def pureClassify (llm : LLMOutcome) (message : List Char) : ClassifiedMessage :=
  if message = [] then getDefaultClassification
  else
    match llm with
    | .fail => getDefaultClassification
    | .ok content =>
      match parseOrExtract content with
      | none => getDefaultClassification
      | some v =>
        if validClassification v then mkClassified v else getDefaultClassification

/-- Compatibility of a pattern with the available text: the pattern agrees
with the text on their common length (so a match could continue past the
end of the text). -/
def agreePre (eq : Char → Char → Bool) : List Char → List Char → Bool
  | [], _ => true
  | _ :: _, [] => true
  | p :: ps, c :: cs => eq p c && agreePre eq ps cs

/-- Does some non-empty suffix of `w` agree with a prefix of `pat`?  Used
as a decidable side condition ruling out pattern occurrences that start
inside a replacement string. -/
def anySuffixAgree (eq : Char → Char → Bool) (pat : List Char) : List Char → Bool
  | [] => false
  | c :: cs => agreePre eq pat (c :: cs) || anySuffixAgree eq pat cs

/-- Does no non-empty suffix of `q` agree with a prefix of `rep`?  Used as
a decidable side condition ruling out pattern occurrences created at the
boundary of a replacement string. -/
def noTailAgree (eq : Char → Char → Bool) (rep : List Char) : List Char → Bool
  | [] => true
  | c :: cs => !agreePre eq (c :: cs) rep && noTailAgree eq rep cs

/-- Characters of a JSON string that can only come from a literal input
character: not a quote, not a backslash, and not the decoded form of any
single-character escape. -/
def plainChar (c : Char) : Bool :=
  !(c == '"' || c == '\\' || c == '/' || c == '\x08' || c == '\x0c' ||
    c == '\n' || c == '\r' || c == '\t')

/-- Concrete classification for the backfill example (claim C4): the
default parameters (both slots empty) under an `order_tracking` intent. -/
def c4ex : ClassifiedMessage :=
  { intent := .str ("order_tracking".toList), parameters := defaultParameters,
    language := .str ("Spanish".toList) }

/-- Concrete context for the backfill example (claim C4): a system turn
carrying an order number and an email, then two user turns. -/
def c4ctx : List Turn :=
  [ { role := ("system".toList), content := ("Pedido #99999 de spam@evil.com".toList) },
    { role := ("user".toList), content := ("mi pedido es el #12345 gracias".toList) },
    { role := ("user".toList), content := ("mi correo es a.b@c.d.es".toList) } ]

/-- Concrete classification for the tracking example (claim C5): a
`delivery_issue` intent over the default parameters. -/
def c5ex : ClassifiedMessage :=
  { intent := .str ("delivery_issue".toList), parameters := defaultParameters,
    language := .str ("English".toList) }

/-- Concrete context for the tracking example (claim C5): one assistant
turn whose markdown link has a numeric segment in the middle of the path
and a different numeric segment at the end. -/
def c5ctx : List Turn :=
  [ { role := ("assistant".toList),
      content := ("Track it [here](https://t.co/55/x/999)".toList) } ]

theorem headMatch_nil_pat (eq : Char → Char → Bool) (s : List Char) :
    headMatch eq [] s = true := by
  cases s <;> rfl

theorem hasOcc_nil_pat (eq : Char → Char → Bool) (s : List Char) :
    hasOcc eq [] s = true := by
  cases s <;> simp [hasOcc, headMatch_nil_pat]

theorem headMatch_append_left {eq : Char → Char → Bool} (p : List Char) :
    ∀ (u v : List Char), headMatch eq p u = true → headMatch eq p (u ++ v) = true := by
  induction p with
  | nil => intro u v _; exact headMatch_nil_pat eq _
  | cons p0 ps ih =>
    intro u v h
    cases u with
    | nil => simp [headMatch] at h
    | cons c cs =>
      simp only [headMatch, Bool.and_eq_true] at h
      simp only [List.cons_append, headMatch, Bool.and_eq_true]
      exact ⟨h.1, ih cs v h.2⟩

theorem hasOcc_cons {eq : Char → Char → Bool} (pat : List Char) (c : Char) (cs : List Char)
    (h : hasOcc eq pat cs = true) : hasOcc eq pat (c :: cs) = true := by
  simp only [hasOcc, h, Bool.or_true]

theorem hasOcc_append_right {eq : Char → Char → Bool} (pat : List Char) :
    ∀ (u v : List Char), hasOcc eq pat v = true → hasOcc eq pat (u ++ v) = true := by
  intro u
  induction u with
  | nil => intro v h; exact h
  | cons c cs ih => intro v h; exact hasOcc_cons pat c (cs ++ v) (ih v h)

theorem hasOcc_append_left {eq : Char → Char → Bool} (pat : List Char) :
    ∀ (u v : List Char), hasOcc eq pat u = true → hasOcc eq pat (u ++ v) = true := by
  intro u
  induction u with
  | nil =>
    intro v h
    cases pat with
    | nil => exact hasOcc_nil_pat eq v
    | cons p ps => simp [hasOcc, headMatch] at h
  | cons c cs ih =>
    intro v h
    simp only [hasOcc, Bool.or_eq_true] at h
    rcases h with h1 | h2
    · have := headMatch_append_left pat (c :: cs) v h1
      simp only [List.cons_append] at this
      simp only [List.cons_append, hasOcc, Bool.or_eq_true]
      exact Or.inl this
    · exact hasOcc_cons pat c (cs ++ v) (ih v h2)

theorem hasOcc_drop {eq : Char → Char → Bool} (pat s : List Char) (n : Nat)
    (h : hasOcc eq pat (s.drop n) = true) : hasOcc eq pat s = true := by
  have h2 := hasOcc_append_right pat (s.take n) (s.drop n) h
  rwa [List.take_append_drop] at h2

theorem headMatch_agreePre {eq : Char → Char → Bool} :
    ∀ (p w v : List Char), headMatch eq p (w ++ v) = true → agreePre eq p w = true := by
  intro p
  induction p with
  | nil => intro w v _; cases w <;> rfl
  | cons p0 ps ih =>
    intro w v h
    cases w with
    | nil => rfl
    | cons c cs =>
      simp only [List.cons_append, headMatch, Bool.and_eq_true] at h
      simp only [agreePre, Bool.and_eq_true]
      exact ⟨h.1, ih cs v h.2⟩

theorem hasOcc_split {eq : Char → Char → Bool} (pat : List Char) :
    ∀ (w v : List Char), hasOcc eq pat (w ++ v) = true →
      anySuffixAgree eq pat w = true ∨ hasOcc eq pat v = true := by
  intro w
  induction w with
  | nil => intro v h; exact Or.inr h
  | cons c cs ih =>
    intro v h
    simp only [List.cons_append, hasOcc, Bool.or_eq_true] at h
    rcases h with h1 | h2
    · have : agreePre eq pat (c :: cs) = true := by
        have := headMatch_agreePre pat (c :: cs) v (by simpa using h1)
        exact this
      exact Or.inl (by simp [anySuffixAgree, this])
    · rcases ih v h2 with h3 | h3
      · exact Or.inl (by simp [anySuffixAgree, h3])
      · exact Or.inr h3

theorem replaceGen_nil (eq : Char → Char → Bool) (pat rep : List Char) :
    replaceGen eq pat rep [] = [] := by
  rw [replaceGen]

theorem replaceGen_cons (eq : Char → Char → Bool) (pat rep : List Char) (c : Char)
    (cs : List Char) :
    replaceGen eq pat rep (c :: cs) =
      if headMatch eq pat (c :: cs) && !pat.isEmpty then
        rep ++ replaceGen eq pat rep (List.drop (pat.length - 1) cs)
      else c :: replaceGen eq pat rep cs := by
  rw [replaceGen]

theorem replaceGen_headMatch_lift {eq eq2 : Char → Char → Bool} {pat rep : List Char} :
    ∀ (w q : List Char), noTailAgree eq2 rep q = true →
      headMatch eq2 q (replaceGen eq pat rep w) = true → headMatch eq2 q w = true := by
  intro w
  induction w with
  | nil =>
    intro q _ h
    rwa [replaceGen_nil] at h
  | cons c cs ih =>
    intro q hcond h
    rw [replaceGen_cons] at h
    by_cases hc : (headMatch eq pat (c :: cs) && !pat.isEmpty) = true
    · rw [if_pos hc] at h
      cases q with
      | nil => exact headMatch_nil_pat eq2 _
      | cons q0 qs =>
        have hagree := headMatch_agreePre (q0 :: qs) rep _ h
        simp only [noTailAgree, Bool.and_eq_true, Bool.not_eq_true'] at hcond
        rw [hcond.1] at hagree
        exact absurd hagree (by simp)
    · rw [if_neg hc] at h
      cases q with
      | nil => exact headMatch_nil_pat eq2 _
      | cons q0 qs =>
        simp only [headMatch, Bool.and_eq_true] at h
        simp only [noTailAgree, Bool.and_eq_true] at hcond
        simp only [headMatch, Bool.and_eq_true]
        exact ⟨h.1, ih qs hcond.2 h.2⟩

theorem replaceGen_of_no_occ {eq : Char → Char → Bool} {pat rep : List Char} :
    ∀ s, hasOcc eq pat s = false → replaceGen eq pat rep s = s := by
  intro s
  induction s with
  | nil => intro _; exact replaceGen_nil eq pat rep
  | cons c cs ih =>
    intro h
    have h' : headMatch eq pat (c :: cs) = false ∧ hasOcc eq pat cs = false := by
      constructor
      · cases hh : headMatch eq pat (c :: cs)
        · rfl
        · simp [hasOcc, hh] at h
      · cases hh : hasOcc eq pat cs
        · rfl
        · simp [hasOcc, hh] at h
    rw [replaceGen_cons, if_neg (by simp [h'.1]), ih h'.2]

theorem replaceGen_no_occ {eq : Char → Char → Bool} {pat rep : List Char}
    (hpat : pat ≠ [])
    (h1 : anySuffixAgree eq pat rep = false)
    (h2 : noTailAgree eq rep (pat.drop 1) = true) :
    ∀ s, hasOcc eq pat (replaceGen eq pat rep s) = false := by
  have main : ∀ n s, s.length ≤ n → hasOcc eq pat (replaceGen eq pat rep s) = false := by
    intro n
    induction n with
    | zero =>
      intro s hs
      have hs0 : s = [] := List.eq_nil_of_length_eq_zero (Nat.le_zero.mp hs)
      subst hs0
      rw [replaceGen_nil]
      obtain ⟨p, ps, rfl⟩ := List.exists_cons_of_ne_nil hpat
      rfl
    | succ n ihn =>
      intro s hs
      cases s with
      | nil =>
        rw [replaceGen_nil]
        obtain ⟨p, ps, rfl⟩ := List.exists_cons_of_ne_nil hpat
        rfl
      | cons c cs =>
        rw [replaceGen_cons]
        by_cases hc : (headMatch eq pat (c :: cs) && !pat.isEmpty) = true
        · rw [if_pos hc]
          cases hocc : hasOcc eq pat (rep ++ replaceGen eq pat rep (List.drop (pat.length - 1) cs))
          · rfl
          · rcases hasOcc_split pat rep _ hocc with hl | hr
            · rw [h1] at hl; exact absurd hl (by simp)
            · have hlen : (List.drop (pat.length - 1) cs).length ≤ n := by
                simp only [List.length_drop]
                simp only [List.length_cons] at hs
                omega
              rw [ihn _ hlen] at hr
              exact absurd hr (by simp)
        · rw [if_neg hc]
          have htail : hasOcc eq pat (replaceGen eq pat rep cs) = false := by
            apply ihn
            simp only [List.length_cons] at hs
            omega
          obtain ⟨p0, ps, rfl⟩ := List.exists_cons_of_ne_nil hpat
          have hhead : headMatch eq (p0 :: ps) (c :: replaceGen eq (p0 :: ps) rep cs) = false := by
            cases hh : headMatch eq (p0 :: ps) (c :: replaceGen eq (p0 :: ps) rep cs)
            · rfl
            · exfalso
              simp only [headMatch, Bool.and_eq_true] at hh
              have hps : headMatch eq ps cs = true := by
                apply replaceGen_headMatch_lift cs ps _ hh.2
                simpa using h2
              have : headMatch eq (p0 :: ps) (c :: cs) && !(p0 :: ps).isEmpty = true := by
                simp [headMatch, hh.1, hps]
              exact hc this
          simp [hasOcc, hhead, htail]
  intro s
  exact main s.length s (Nat.le_refl _)

theorem replaceGen_preserve {eq eq2 : Char → Char → Bool} {pat rep p2 : List Char}
    (hp2 : p2 ≠ [])
    (h1 : anySuffixAgree eq2 p2 rep = false)
    (h2 : noTailAgree eq2 rep (p2.drop 1) = true) :
    ∀ s, hasOcc eq2 p2 s = false → hasOcc eq2 p2 (replaceGen eq pat rep s) = false := by
  have main : ∀ n s, s.length ≤ n → hasOcc eq2 p2 s = false →
      hasOcc eq2 p2 (replaceGen eq pat rep s) = false := by
    intro n
    induction n with
    | zero =>
      intro s hs h0
      have hs0 : s = [] := List.eq_nil_of_length_eq_zero (Nat.le_zero.mp hs)
      subst hs0
      rwa [replaceGen_nil]
    | succ n ihn =>
      intro s hs h0
      cases s with
      | nil => rwa [replaceGen_nil]
      | cons c cs =>
        have h0' : headMatch eq2 p2 (c :: cs) = false ∧ hasOcc eq2 p2 cs = false := by
          constructor
          · cases hh : headMatch eq2 p2 (c :: cs)
            · rfl
            · simp [hasOcc, hh] at h0
          · cases hh : hasOcc eq2 p2 cs
            · rfl
            · simp [hasOcc, hh] at h0
        rw [replaceGen_cons]
        by_cases hc : (headMatch eq pat (c :: cs) && !pat.isEmpty) = true
        · rw [if_pos hc]
          cases hocc : hasOcc eq2 p2 (rep ++ replaceGen eq pat rep (List.drop (pat.length - 1) cs))
          · rfl
          · rcases hasOcc_split p2 rep _ hocc with hl | hr
            · rw [h1] at hl; exact absurd hl (by simp)
            · have hdrop : hasOcc eq2 p2 (List.drop (pat.length - 1) cs) = false := by
                cases hd : hasOcc eq2 p2 (List.drop (pat.length - 1) cs)
                · rfl
                · have := hasOcc_drop p2 cs (pat.length - 1) hd
                  rw [h0'.2] at this
                  exact absurd this (by simp)
              have hlen : (List.drop (pat.length - 1) cs).length ≤ n := by
                simp only [List.length_drop]
                simp only [List.length_cons] at hs
                omega
              rw [ihn _ hlen hdrop] at hr
              exact absurd hr (by simp)
        · rw [if_neg hc]
          have htail : hasOcc eq2 p2 (replaceGen eq pat rep cs) = false := by
            apply ihn
            · simp only [List.length_cons] at hs
              omega
            · exact h0'.2
          obtain ⟨q0, qs, rfl⟩ := List.exists_cons_of_ne_nil hp2
          have hhead : headMatch eq2 (q0 :: qs) (c :: replaceGen eq pat rep cs) = false := by
            cases hh : headMatch eq2 (q0 :: qs) (c :: replaceGen eq pat rep cs)
            · rfl
            · exfalso
              simp only [headMatch, Bool.and_eq_true] at hh
              have hqs : headMatch eq2 qs cs = true := by
                apply replaceGen_headMatch_lift cs qs _ hh.2
                simpa using h2
              have : headMatch eq2 (q0 :: qs) (c :: cs) = true := by
                simp [headMatch, hh.1, hqs]
              rw [h0'.1] at this
              exact absurd this (by simp)
          simp [hasOcc, hhead, htail]
  intro s
  exact main s.length s (Nat.le_refl _) 

theorem dropWhile_ex (p : Char → Bool) :
    ∀ l : List Char, ∃ t, t ++ l.dropWhile p = l := by
  intro l
  induction l with
  | nil => exact ⟨[], rfl⟩
  | cons c cs ih =>
    by_cases hc : p c = true
    · obtain ⟨t, ht⟩ := ih
      exact ⟨c :: t, by simp [List.dropWhile_cons, hc, ht]⟩
    · exact ⟨[], by simp [List.dropWhile_cons, hc]⟩

theorem hasOcc_ltrim {eq : Char → Char → Bool} {pat s : List Char}
    (h : hasOcc eq pat (ltrim s) = true) : hasOcc eq pat s = true := by
  obtain ⟨t, ht⟩ := dropWhile_ex isWS s
  rw [← ht]
  exact hasOcc_append_right pat t _ h

theorem rtrim_prefix (s : List Char) : ∃ t, rtrim s ++ t = s := by
  obtain ⟨t, ht⟩ := dropWhile_ex isWS s.reverse
  refine ⟨t.reverse, ?_⟩
  have : (t ++ s.reverse.dropWhile isWS).reverse = s.reverse.reverse := by rw [ht]
  simp only [List.reverse_append, List.reverse_reverse] at this
  simpa [rtrim] using this

theorem hasOcc_rtrim {eq : Char → Char → Bool} {pat s : List Char}
    (h : hasOcc eq pat (rtrim s) = true) : hasOcc eq pat s = true := by
  obtain ⟨t, ht⟩ := rtrim_prefix s
  rw [← ht]
  exact hasOcc_append_left pat _ t h

theorem hasOcc_trim {eq : Char → Char → Bool} {pat s : List Char}
    (h : hasOcc eq pat (trimChars s) = true) : hasOcc eq pat s = true :=
  hasOcc_ltrim (hasOcc_rtrim h)

theorem dropWhile_idem (p : Char → Bool) :
    ∀ l : List Char, List.dropWhile p (List.dropWhile p l) = List.dropWhile p l := by
  intro l
  induction l with
  | nil => rfl
  | cons c cs ih =>
    by_cases hc : p c = true
    · simp [List.dropWhile_cons, hc, ih]
    · simp [List.dropWhile_cons, hc]

theorem dropWhile_length_le (p : Char → Bool) :
    ∀ l : List Char, (l.dropWhile p).length ≤ l.length := by
  intro l
  induction l with
  | nil => simp
  | cons c cs ih =>
    by_cases hc : p c = true
    · rw [List.dropWhile_cons, if_pos hc]
      exact Nat.le_trans ih (Nat.le_succ _)
    · rw [List.dropWhile_cons, if_neg hc]

theorem ltrim_rtrim_eq (v : List Char) (hv : ltrim v = v) : ltrim (rtrim v) = rtrim v := by
  obtain ⟨t, ht⟩ := rtrim_prefix v
  cases hr : rtrim v with
  | nil => rfl
  | cons c w =>
    have hv2 : v = c :: (w ++ t) := by rw [← ht, hr]; rfl
    have hc : isWS c = false := by
      by_cases h : isWS c = true
      · exfalso
        rw [hv2] at hv
        rw [ltrim] at hv
        rw [List.dropWhile_cons, if_pos h] at hv
        have hlen := congrArg List.length hv
        have := dropWhile_length_le isWS (w ++ t)
        simp only [List.length_cons] at hlen
        omega
      · exact Bool.eq_false_iff.mpr h
    rw [ltrim, List.dropWhile_cons, if_neg (by simp [hc])]

theorem rtrim_idem (u : List Char) : rtrim (rtrim u) = rtrim u := by
  simp only [rtrim, List.reverse_reverse]
  rw [dropWhile_idem]

theorem trimChars_idem (s : List Char) : trimChars (trimChars s) = trimChars s := by
  have h1 : ltrim (ltrim s) = ltrim s := dropWhile_idem isWS s
  have h2 : ltrim (rtrim (ltrim s)) = rtrim (ltrim s) := ltrim_rtrim_eq _ h1
  show rtrim (ltrim (rtrim (ltrim s))) = rtrim (ltrim s)
  rw [h2, rtrim_idem]

/-- Claim C6: the input sanitizer is idempotent: for every string `x`,
`sanitizeInput (sanitizeInput x) = sanitizeInput x`, in particular for
inputs containing triple-backtick sequences and case-insensitive
`system:` prefixes. -/
theorem claim_C6_sanitize_idempotent :
    ∀ s : List Char, sanitizeInput (sanitizeInput s) = sanitizeInput s := by
  intro s
  have hbt : ("```".toList) ≠ ([] : List Char) := by decide
  have hsys : ("system:".toList) ≠ ([] : List Char) := by decide
  have c1 : anySuffixAgree eqExact ("```".toList) ("\x27\x27\x27".toList) = false := by decide
  have c2 : noTailAgree eqExact ("\x27\x27\x27".toList) (("```".toList).drop 1) = true := by
    decide
  have c3 : anySuffixAgree eqCI ("system:".toList) ("sys:".toList) = false := by decide
  have c4 : noTailAgree eqCI ("sys:".toList) (("system:".toList).drop 1) = true := by decide
  have c5 : anySuffixAgree eqExact ("```".toList) ("sys:".toList) = false := by decide
  have c6 : noTailAgree eqExact ("sys:".toList) (("```".toList).drop 1) = true := by decide
  have na : hasOcc eqExact ("```".toList)
      (replaceGen eqExact ("```".toList) ("\x27\x27\x27".toList) s) = false :=
    replaceGen_no_occ hbt c1 c2 s
  have nb : hasOcc eqExact ("```".toList)
      (replaceGen eqCI ("system:".toList) ("sys:".toList)
        (replaceGen eqExact ("```".toList) ("\x27\x27\x27".toList) s)) = false :=
    replaceGen_preserve hbt c5 c6 _ na
  have nb2 : hasOcc eqCI ("system:".toList)
      (replaceGen eqCI ("system:".toList) ("sys:".toList)
        (replaceGen eqExact ("```".toList) ("\x27\x27\x27".toList) s)) = false :=
    replaceGen_no_occ hsys c3 c4 _
  have nt : hasOcc eqExact ("```".toList) (sanitizeInput s) = false := by
    cases h : hasOcc eqExact ("```".toList) (sanitizeInput s)
    · rfl
    · exfalso
      have := hasOcc_trim (s := replaceGen eqCI ("system:".toList) ("sys:".toList)
        (replaceGen eqExact ("```".toList) ("\x27\x27\x27".toList) s)) h
      rw [nb] at this
      exact absurd this (by simp)
  have nt2 : hasOcc eqCI ("system:".toList) (sanitizeInput s) = false := by
    cases h : hasOcc eqCI ("system:".toList) (sanitizeInput s)
    · rfl
    · exfalso
      have := hasOcc_trim (s := replaceGen eqCI ("system:".toList) ("sys:".toList)
        (replaceGen eqExact ("```".toList) ("\x27\x27\x27".toList) s)) h
      rw [nb2] at this
      exact absurd this (by simp)
  show trimChars
      (replaceGen eqCI ("system:".toList) ("sys:".toList)
        (replaceGen eqExact ("```".toList) ("\x27\x27\x27".toList) (sanitizeInput s)))
      = sanitizeInput s
  rw [replaceGen_of_no_occ _ nt, replaceGen_of_no_occ _ nt2]
  exact trimChars_idem _

theorem lookupLast_append :
    ∀ (p c : ParamMap) (k : List Char),
      lookupLast (p ++ c) k =
        match lookupLast c k with
        | some v => some v
        | none => lookupLast p k := by
  intro p c k
  induction p with
  | nil =>
    simp only [List.nil_append]
    cases lookupLast c k <;> rfl
  | cons e rest ih =>
    obtain ⟨k', v⟩ := e
    show lookupLast ((k', v) :: (rest ++ c)) k = _
    simp only [lookupLast, ih]
    cases h : lookupLast c k <;> cases h2 : lookupLast rest k <;> simp [lookupLast, h, h2]

/-- Spread semantics of the parameter merge: lookups prefer the new
parameters and fall back to the previous ones. -/
theorem mergeParams_lookup (prev cur : ParamMap) (k : List Char) :
    lookupLast (mergeParams prev cur) k =
      match lookupLast cur k with
      | some v => some v
      | none => lookupLast prev k :=
  lookupLast_append prev cur k

theorem suffix_comp {a b c : List Char} (h1 : ∃ u, u ++ b = a) (h2 : ∃ w, w ++ c = b) :
    ∃ u, u ++ c = a := by
  obtain ⟨u, hu⟩ := h1
  obtain ⟨w, hw⟩ := h2
  exact ⟨u ++ w, by rw [List.append_assoc, hw, hu]⟩

theorem suffix_skipWs (s : List Char) : ∃ t, t ++ skipWs s = s :=
  dropWhile_ex _ s

theorem suffix_drop (s : List Char) (n : Nat) : ∃ u, u ++ s.drop n = s :=
  ⟨s.take n, List.take_append_drop n s⟩

theorem parseFrac_consume (s : List Char) : ∃ u, u ++ (parseFrac s).2 = s := by
  unfold parseFrac
  cases s with
  | nil => exact ⟨[], rfl⟩
  | cons c rest =>
    by_cases hc : (c == '.') = true
    · simp only [hc, if_true]
      by_cases hd : (rest.takeWhile Char.isDigit).isEmpty = true
      · simp only [hd, if_true]
        exact ⟨[], rfl⟩
      · simp only [hd, if_false]
        exact ⟨c :: rest.take (rest.takeWhile Char.isDigit).length, by
          simp [List.take_append_drop]⟩
    · simp only [hc, if_false]
      exact ⟨[], rfl⟩

theorem parseExp_consume (s : List Char) : ∃ u, u ++ (parseExp s).2 = s := by
  unfold parseExp
  cases s with
  | nil => exact ⟨[], rfl⟩
  | cons e rest =>
    by_cases he : (e == 'e' || e == 'E') = true
    · simp only [he, if_true]
      have hsr : ∃ w, w ++ (match rest with
          | c :: cs => if c == '+' || c == '-' then (([c] : List Char), cs) else ([], rest)
          | [] => ([], rest)).2 = e :: rest := by
        cases rest with
        | nil => exact ⟨[e], rfl⟩
        | cons c cs =>
          by_cases hc : (c == '+' || c == '-') = true
          · simp only [hc, if_true]
            exact ⟨[e, c], rfl⟩
          · simp only [hc, if_false]
            exact ⟨[e], rfl⟩
      obtain ⟨w, hw⟩ := hsr
      set sr := (match rest with
          | c :: cs => if c == '+' || c == '-' then (([c] : List Char), cs) else ([], rest)
          | [] => ([], rest)) with hsrdef
      by_cases hd : (sr.2.takeWhile Char.isDigit).isEmpty = true
      · simp only [hd, if_true]
        exact ⟨[], rfl⟩
      · simp only [hd, if_false]
        refine suffix_comp ⟨w, hw⟩ (suffix_drop _ _)
    · simp only [he, if_false]
      exact ⟨[], rfl⟩

theorem parseNumTail_consume (s : List Char) : ∃ u, u ++ (parseNumTail s).2 = s := by
  unfold parseNumTail
  exact suffix_comp (parseFrac_consume s) (parseExp_consume (parseFrac s).2)

theorem parseNumBody_consume (neg s1 raw r : List Char)
    (h : parseNumBody neg s1 = some (raw, r)) : ∃ u, u ++ r = s1 := by
  unfold parseNumBody at h
  cases s1 with
  | nil => exact absurd h (by simp)
  | cons c rest =>
    by_cases hc0 : (c == '0') = true
    · simp only [hc0, if_true] at h
      have hr : r = (parseNumTail rest).2 := by
        injection h with h'
        injection h' with h1 h2
        exact h2.symm
      subst hr
      exact suffix_comp (⟨[c], rfl⟩ : ∃ u, u ++ rest = c :: rest) (parseNumTail_consume rest)
    · simp only [hc0, if_false] at h
      by_cases hdg : c.isDigit = true
      · simp only [hdg, if_true] at h
        have hr : r = (parseNumTail ((c :: rest).drop
            ((c :: rest).takeWhile Char.isDigit).length)).2 := by
          injection h with h'
          injection h' with h1 h2
          exact h2.symm
        subst hr
        exact suffix_comp (suffix_drop (c :: rest) _) (parseNumTail_consume _)
      · simp only [hdg, if_false] at h
        exact absurd h (by simp)

theorem parseNumber_consume (s raw r : List Char) (h : parseNumber s = some (raw, r)) :
    ∃ u, u ++ r = s := by
  unfold parseNumber at h
  cases s with
  | nil => exact absurd h (by simp)
  | cons c rest =>
    by_cases hc : (c == '-') = true
    · simp only [hc, if_true] at h
      exact suffix_comp (⟨[c], rfl⟩ : ∃ u, u ++ rest = c :: rest)
        (parseNumBody_consume _ _ _ _ h)
    · simp only [hc, if_false] at h
      exact parseNumBody_consume _ _ _ _ h

theorem parseStrBody_consume :
    ∀ s p rest, parseStrBody s = some (p, rest) → ∃ u, u ++ rest = s := by
  have main : ∀ n s, s.length ≤ n → ∀ p rest, parseStrBody s = some (p, rest) →
      ∃ u, u ++ rest = s := by
    intro n
    induction n with
    | zero =>
      intro s hs p rest h
      have hs0 : s = [] := List.eq_nil_of_length_eq_zero (Nat.le_zero.mp hs)
      subst hs0
      rw [parseStrBody.eq_def] at h
      simp at h
    | succ n ihn =>
      intro s hs p rest h
      cases s with
      | nil => rw [parseStrBody.eq_def] at h; simp at h
      | cons c cs =>
        rw [parseStrBody.eq_def] at h
        cases hq : c == '"' with
        | true =>
          simp only [hq, if_true] at h
          obtain ⟨h1, h2⟩ := Prod.mk.injEq .. ▸ Option.some.inj h
          exact ⟨[c], by simp [h2]⟩
        | false =>
          simp only [hq, Bool.false_eq_true, if_false] at h
          cases hb : c == '\\' with
          | true =>
            cases cs with
            | nil => simp [hb] at h
            | cons e rest' =>
              simp only [hb, if_true] at h
              cases hesc : escChar e with
              | none => rw [hesc] at h; simp at h
              | some d =>
                rw [hesc] at h
                cases hsb : parseStrBody rest' with
                | none => rw [hsb] at h; simp at h
                | some pr =>
                  obtain ⟨p', r⟩ := pr
                  rw [hsb] at h
                  obtain ⟨h1, h2⟩ := Prod.mk.injEq .. ▸ Option.some.inj h
                  have hlen : rest'.length ≤ n := by
                    simp only [List.length_cons] at hs
                    omega
                  obtain ⟨u', hu⟩ := ihn rest' hlen p' r hsb
                  exact ⟨c :: e :: u', by rw [← h2]; simp [hu]⟩
          | false =>
            simp only [hb, Bool.false_eq_true, if_false] at h
            by_cases hctl : c.val < 32
            · rw [if_pos hctl] at h
              simp at h
            · rw [if_neg hctl] at h
              cases hsb : parseStrBody cs with
              | none => rw [hsb] at h; simp at h
              | some pr =>
                obtain ⟨p', r⟩ := pr
                rw [hsb] at h
                obtain ⟨h1, h2⟩ := Prod.mk.injEq .. ▸ Option.some.inj h
                have hlen : cs.length ≤ n := by
                  simp only [List.length_cons] at hs
                  omega
                obtain ⟨u', hu⟩ := ihn cs hlen p' r hsb
                exact ⟨c :: u', by rw [← h2]; simp [hu]⟩
  intro s
  exact main s.length s (Nat.le_refl _)

theorem escChar_not_plain : ∀ e d, escChar e = some d → plainChar d = false := by
  intro e d h
  unfold escChar at h
  split_ifs at h <;>
    first
      | (injection h with h'; exact h' ▸ (by decide))
      | exact absurd h (by simp)

theorem parseStrBody_plain :
    ∀ s p rest, parseStrBody s = some (p, rest) → p.all plainChar = true →
      s = p ++ '"' :: rest := by
  have main : ∀ n s, s.length ≤ n → ∀ p rest, parseStrBody s = some (p, rest) →
      p.all plainChar = true → s = p ++ '"' :: rest := by
    intro n
    induction n with
    | zero =>
      intro s hs p rest h _
      have hs0 : s = [] := List.eq_nil_of_length_eq_zero (Nat.le_zero.mp hs)
      subst hs0
      rw [parseStrBody.eq_def] at h
      simp at h
    | succ n ihn =>
      intro s hs p rest h hplain
      cases s with
      | nil => rw [parseStrBody.eq_def] at h; simp at h
      | cons c cs =>
        rw [parseStrBody.eq_def] at h
        cases hq : c == '"' with
        | true =>
          simp only [hq, if_true] at h
          obtain ⟨h1, h2⟩ := Prod.mk.injEq .. ▸ Option.some.inj h
          have hc : c = '"' := eq_of_beq hq
          rw [← h1, ← h2, hc]
          simp
        | false =>
          simp only [hq, Bool.false_eq_true, if_false] at h
          cases hb : c == '\\' with
          | true =>
            cases cs with
            | nil => simp [hb] at h
            | cons e rest' =>
              simp only [hb, if_true] at h
              cases hesc : escChar e with
              | none => rw [hesc] at h; simp at h
              | some d =>
                rw [hesc] at h
                cases hsb : parseStrBody rest' with
                | none => rw [hsb] at h; simp at h
                | some pr =>
                  obtain ⟨p', r⟩ := pr
                  rw [hsb] at h
                  obtain ⟨h1, h2⟩ := Prod.mk.injEq .. ▸ Option.some.inj h
                  exfalso
                  rw [← h1] at hplain
                  simp only [List.all_cons, Bool.and_eq_true] at hplain
                  have := escChar_not_plain e d hesc
                  rw [this] at hplain
                  exact absurd hplain.1 (by simp)
          | false =>
            simp only [hb, Bool.false_eq_true, if_false] at h
            by_cases hctl : c.val < 32
            · rw [if_pos hctl] at h
              simp at h
            · rw [if_neg hctl] at h
              cases hsb : parseStrBody cs with
              | none => rw [hsb] at h; simp at h
              | some pr =>
                obtain ⟨p', r⟩ := pr
                rw [hsb] at h
                obtain ⟨h1, h2⟩ := Prod.mk.injEq .. ▸ Option.some.inj h
                have hplain' : p'.all plainChar = true := by
                  rw [← h1] at hplain
                  simp only [List.all_cons, Bool.and_eq_true] at hplain
                  exact hplain.2
                have hlen : cs.length ≤ n := by
                  simp only [List.length_cons] at hs
                  omega
                have hcs := ihn cs hlen p' r hsb hplain'
                rw [← h1, ← h2, hcs]
                rfl
  intro s
  exact main s.length s (Nat.le_refl _)

theorem parseArrElems_succ (n : Nat) (s : List Char) :
    parseArrElems (n + 1) s =
      match parseVal n s with
      | some (v, r) =>
        match skipWs r with
        | d :: r' =>
          if d == ',' then
            match parseArrElems n (skipWs r') with
            | some (.arr vs, r'') => some (.arr (v :: vs), r'')
            | _ => none
          else if d == ']' then some (.arr [v], r')
          else none
        | [] => none
      | none => none := rfl

theorem parsers_consume : ∀ fuel,
    (∀ s v rest, parseVal fuel s = some (v, rest) → ∃ u, u ++ rest = s) ∧
    (∀ s v rest, parseArrElems fuel s = some (v, rest) → ∃ u, u ++ rest = s) ∧
    (∀ s v rest, parseObjMembers fuel s = some (v, rest) → ∃ u, u ++ rest = s) := by
  intro fuel
  induction fuel with
  | zero =>
    refine ⟨?_, ?_, ?_⟩ <;> intro s v rest h <;> exact Option.noConfusion h
  | succ n ih =>
    obtain ⟨ihV, ihA, ihO⟩ := ih
    refine ⟨?_, ?_, ?_⟩
    · intro s v rest h
      rw [parseVal.eq_def] at h
      cases s with
      | nil => exact Option.noConfusion h
      | cons c rest0 =>
        cases hq : c == '"' with
        | true =>
          simp only [hq, if_true] at h
          cases hsb : parseStrBody rest0 with
          | none => rw [hsb] at h; exact Option.noConfusion h
          | some pr =>
            obtain ⟨p, r⟩ := pr
            rw [hsb] at h
            try simp only [] at h
            obtain ⟨h1, h2⟩ := Prod.mk.injEq .. ▸ Option.some.inj h
            refine suffix_comp (⟨[c], rfl⟩ : ∃ u, u ++ rest0 = c :: rest0) ?_
            rw [← h2]
            exact parseStrBody_consume rest0 p r hsb
        | false =>
          simp only [hq, Bool.false_eq_true, if_false] at h
          cases hob : c == '\x7b' with
          | true =>
            simp only [hob, if_true] at h
            cases hws : skipWs rest0 with
            | nil => rw [hws] at h; exact Option.noConfusion h
            | cons d r =>
              rw [hws] at h
              try simp only [] at h
              have hsfx : ∃ u, u ++ (d :: r) = c :: rest0 :=
                suffix_comp (⟨[c], rfl⟩ : ∃ u, u ++ rest0 = c :: rest0)
                  (hws ▸ suffix_skipWs rest0)
              cases hd : d == '\x7d' with
              | true =>
                simp only [hd, if_true] at h
                obtain ⟨h1, h2⟩ := Prod.mk.injEq .. ▸ Option.some.inj h
                rw [← h2]
                exact suffix_comp hsfx (⟨[d], rfl⟩ : ∃ u, u ++ r = d :: r)
              | false =>
                simp only [hd, Bool.false_eq_true, if_false] at h
                exact suffix_comp hsfx (ihO _ _ _ h)
          | false =>
            simp only [hob, Bool.false_eq_true, if_false] at h
            cases har : c == '[' with
            | true =>
              simp only [har, if_true] at h
              cases hws : skipWs rest0 with
              | nil => rw [hws] at h; exact Option.noConfusion h
              | cons d r =>
                rw [hws] at h
                try simp only [] at h
                have hsfx : ∃ u, u ++ (d :: r) = c :: rest0 :=
                  suffix_comp (⟨[c], rfl⟩ : ∃ u, u ++ rest0 = c :: rest0)
                    (hws ▸ suffix_skipWs rest0)
                cases hd : d == ']' with
                | true =>
                  simp only [hd, if_true] at h
                  obtain ⟨h1, h2⟩ := Prod.mk.injEq .. ▸ Option.some.inj h
                  rw [← h2]
                  exact suffix_comp hsfx (⟨[d], rfl⟩ : ∃ u, u ++ r = d :: r)
                | false =>
                  simp only [hd, Bool.false_eq_true, if_false] at h
                  exact suffix_comp hsfx (ihA _ _ _ h)
            | false =>
              simp only [har, Bool.false_eq_true, if_false] at h
              cases ht : c == 't' with
              | true =>
                simp only [ht, if_true] at h
                cases hm : headMatch eqExact ("rue".toList) rest0 with
                | false => rw [hm] at h; exact Option.noConfusion h
                | true =>
                  rw [hm] at h
                  try simp only [] at h
                  simp only [if_true] at h
                  obtain ⟨h1, h2⟩ := Prod.mk.injEq .. ▸ Option.some.inj h
                  rw [← h2]
                  exact suffix_comp (⟨[c], rfl⟩ : ∃ u, u ++ rest0 = c :: rest0)
                    (suffix_drop rest0 3)
              | false =>
                simp only [ht, Bool.false_eq_true, if_false] at h
                cases hf : c == 'f' with
                | true =>
                  simp only [hf, if_true] at h
                  cases hm : headMatch eqExact ("alse".toList) rest0 with
                  | false => rw [hm] at h; exact Option.noConfusion h
                  | true =>
                    rw [hm] at h
                    try simp only [] at h
                    simp only [if_true] at h
                    obtain ⟨h1, h2⟩ := Prod.mk.injEq .. ▸ Option.some.inj h
                    rw [← h2]
                    exact suffix_comp (⟨[c], rfl⟩ : ∃ u, u ++ rest0 = c :: rest0)
                      (suffix_drop rest0 4)
                | false =>
                  simp only [hf, Bool.false_eq_true, if_false] at h
                  cases hn : c == 'n' with
                  | true =>
                    simp only [hn, if_true] at h
                    cases hm : headMatch eqExact ("ull".toList) rest0 with
                    | false => rw [hm] at h; exact Option.noConfusion h
                    | true =>
                      rw [hm] at h
                      try simp only [] at h
                      simp only [if_true] at h
                      obtain ⟨h1, h2⟩ := Prod.mk.injEq .. ▸ Option.some.inj h
                      rw [← h2]
                      exact suffix_comp (⟨[c], rfl⟩ : ∃ u, u ++ rest0 = c :: rest0)
                        (suffix_drop rest0 3)
                  | false =>
                    simp only [hn, Bool.false_eq_true, if_false] at h
                    cases hpn : parseNumber (c :: rest0) with
                    | none => rw [hpn] at h; exact Option.noConfusion h
                    | some pr =>
                      obtain ⟨raw, r⟩ := pr
                      rw [hpn] at h
                      try simp only [] at h
                      obtain ⟨h1, h2⟩ := Prod.mk.injEq .. ▸ Option.some.inj h
                      rw [← h2]
                      exact parseNumber_consume (c :: rest0) raw r hpn
    · intro s v rest h
      rw [parseArrElems_succ] at h
      cases hpv : parseVal n s with
      | none => rw [hpv] at h; exact Option.noConfusion h
      | some pr =>
        obtain ⟨v0, r⟩ := pr
        rw [hpv] at h
        try simp only [] at h
        have hs1 : ∃ u, u ++ r = s := ihV _ _ _ hpv
        cases hws : skipWs r with
        | nil => rw [hws] at h; exact Option.noConfusion h
        | cons d r' =>
          rw [hws] at h
          try simp only [] at h
          have hs2 : ∃ u, u ++ (d :: r') = s :=
            suffix_comp hs1 (hws ▸ suffix_skipWs r)
          cases hd : d == ',' with
          | true =>
            simp only [hd, if_true] at h
            cases hae : parseArrElems n (skipWs r') with
            | none => rw [hae] at h; exact Option.noConfusion h
            | some pr2 =>
              obtain ⟨v2, r''⟩ := pr2
              rw [hae] at h
              try simp only [] at h
              cases v2 with
              | arr vs =>
                obtain ⟨h1, h2⟩ := Prod.mk.injEq .. ▸ Option.some.inj h
                rw [← h2]
                refine suffix_comp hs2 ?_
                refine suffix_comp (⟨[d], rfl⟩ : ∃ u, u ++ r' = d :: r') ?_
                exact suffix_comp (suffix_skipWs r') (ihA _ _ _ hae)
              | null => exact Option.noConfusion h
              | bool b => exact Option.noConfusion h
              | num raw => exact Option.noConfusion h
              | str t => exact Option.noConfusion h
              | obj kvs => exact Option.noConfusion h
          | false =>
            simp only [hd, Bool.false_eq_true, if_false] at h
            cases hd2 : d == ']' with
            | true =>
              simp only [hd2, if_true] at h
              obtain ⟨h1, h2⟩ := Prod.mk.injEq .. ▸ Option.some.inj h
              rw [← h2]
              exact suffix_comp hs2 (⟨[d], rfl⟩ : ∃ u, u ++ r' = d :: r')
            | false =>
              simp only [hd2, Bool.false_eq_true, if_false] at h
              exact Option.noConfusion h
    · intro s v rest h
      rw [parseObjMembers.eq_def] at h
      cases s with
      | nil => exact Option.noConfusion h
      | cons c rest0 =>
        cases hq : c == '"' with
        | false =>
          simp only [hq, Bool.false_eq_true, if_false] at h
          exact Option.noConfusion h
        | true =>
          simp only [hq, if_true] at h
          cases hsb : parseStrBody rest0 with
          | none => rw [hsb] at h; exact Option.noConfusion h
          | some pr =>
            obtain ⟨k, r⟩ := pr
            rw [hsb] at h
            try simp only [] at h
            have hs1 : ∃ u, u ++ r = c :: rest0 :=
              suffix_comp (⟨[c], rfl⟩ : ∃ u, u ++ rest0 = c :: rest0)
                (parseStrBody_consume rest0 k r hsb)
            cases hws : skipWs r with
            | nil => rw [hws] at h; exact Option.noConfusion h
            | cons d r' =>
              rw [hws] at h
              try simp only [] at h
              have hs2 : ∃ u, u ++ (d :: r') = c :: rest0 :=
                suffix_comp hs1 (hws ▸ suffix_skipWs r)
              cases hd : d == ':' with
              | false =>
                simp only [hd, Bool.false_eq_true, if_false] at h
                exact Option.noConfusion h
              | true =>
                simp only [hd, if_true] at h
                cases hpv : parseVal n (skipWs r') with
                | none => rw [hpv] at h; exact Option.noConfusion h
                | some pr2 =>
                  obtain ⟨v0, r''⟩ := pr2
                  rw [hpv] at h
                  try simp only [] at h
                  have hs3 : ∃ u, u ++ r'' = c :: rest0 := by
                    refine suffix_comp hs2 ?_
                    refine suffix_comp (⟨[d], rfl⟩ : ∃ u, u ++ r' = d :: r') ?_
                    exact suffix_comp (suffix_skipWs r') (ihV _ _ _ hpv)
                  cases hws2 : skipWs r'' with
                  | nil => rw [hws2] at h; exact Option.noConfusion h
                  | cons e r3 =>
                    rw [hws2] at h
                    try simp only [] at h
                    have hs4 : ∃ u, u ++ (e :: r3) = c :: rest0 :=
                      suffix_comp hs3 (hws2 ▸ suffix_skipWs r'')
                    cases he : e == ',' with
                    | true =>
                      simp only [he, if_true] at h
                      cases hom : parseObjMembers n (skipWs r3) with
                      | none => rw [hom] at h; exact Option.noConfusion h
                      | some pr3 =>
                        obtain ⟨v3, r4⟩ := pr3
                        rw [hom] at h
                        try simp only [] at h
                        cases v3 with
                        | obj kvs =>
                          obtain ⟨h1, h2⟩ := Prod.mk.injEq .. ▸ Option.some.inj h
                          rw [← h2]
                          refine suffix_comp hs4 ?_
                          refine suffix_comp (⟨[e], rfl⟩ : ∃ u, u ++ r3 = e :: r3) ?_
                          exact suffix_comp (suffix_skipWs r3) (ihO _ _ _ hom)
                        | null => exact Option.noConfusion h
                        | bool b => exact Option.noConfusion h
                        | num raw => exact Option.noConfusion h
                        | str t => exact Option.noConfusion h
                        | arr vs => exact Option.noConfusion h
                    | false =>
                      simp only [he, Bool.false_eq_true, if_false] at h
                      cases he2 : e == '\x7d' with
                      | true =>
                        simp only [he2, if_true] at h
                        obtain ⟨h1, h2⟩ := Prod.mk.injEq .. ▸ Option.some.inj h
                        rw [← h2]
                        exact suffix_comp hs4 (⟨[e], rfl⟩ : ∃ u, u ++ r3 = e :: r3)
                      | false =>
                        simp only [he2, Bool.false_eq_true, if_false] at h
                        exact Option.noConfusion h

theorem headMatch_self_append : ∀ (k x : List Char), headMatch eqExact k (k ++ x) = true := by
  intro k
  induction k with
  | nil => intro x; exact headMatch_nil_pat _ _
  | cons a as ih =>
    intro x
    simp only [List.cons_append, headMatch, Bool.and_eq_true]
    exact ⟨by simp [eqExact], ih x⟩

theorem hasOcc_of_headMatch {eq : Char → Char → Bool} (p s : List Char)
    (h : headMatch eq p s = true) : hasOcc eq p s = true := by
  cases s with
  | nil => simpa [hasOcc] using h
  | cons c cs => simp [hasOcc, h]

theorem containsSub_self_append (k x : List Char) : containsSub k (k ++ x) = true :=
  hasOcc_of_headMatch _ _ (headMatch_self_append k x)

theorem containsSub_suffix {k a b : List Char} (hs : ∃ u, u ++ b = a)
    (h : containsSub k b = true) : containsSub k a = true := by
  obtain ⟨u, hu⟩ := hs
  rw [← hu]
  exact hasOcc_append_right k u b h

theorem parseObjMembers_keys :
    ∀ fuel s kvs rest, parseObjMembers fuel s = some (.obj kvs, rest) →
      ∀ k w, (k, w) ∈ kvs → k.all plainChar = true → containsSub k s = true := by
  intro fuel
  induction fuel with
  | zero =>
    intro s kvs rest h
    exact Option.noConfusion h
  | succ n ihO =>
    intro s kvs rest h k w hmem hplain
    rw [parseObjMembers.eq_def] at h
    cases s with
    | nil => exact Option.noConfusion h
    | cons c rest0 =>
      cases hq : c == '"' with
      | false =>
        simp only [hq, Bool.false_eq_true, if_false] at h
        exact Option.noConfusion h
      | true =>
        simp only [hq, if_true] at h
        cases hsb : parseStrBody rest0 with
        | none => rw [hsb] at h; exact Option.noConfusion h
        | some pr =>
          obtain ⟨k0, r⟩ := pr
          rw [hsb] at h
          try simp only [] at h
          cases hws : skipWs r with
          | nil => rw [hws] at h; exact Option.noConfusion h
          | cons d r' =>
            rw [hws] at h
            try simp only [] at h
            cases hd : d == ':' with
            | false =>
              simp only [hd, Bool.false_eq_true, if_false] at h
              exact Option.noConfusion h
            | true =>
              simp only [hd, if_true] at h
              cases hpv : parseVal n (skipWs r') with
              | none => rw [hpv] at h; exact Option.noConfusion h
              | some pr2 =>
                obtain ⟨v0, r''⟩ := pr2
                rw [hpv] at h
                try simp only [] at h
                cases hws2 : skipWs r'' with
                | nil => rw [hws2] at h; exact Option.noConfusion h
                | cons e r3 =>
                  rw [hws2] at h
                  try simp only [] at h
                  cases he : e == ',' with
                  | true =>
                    simp only [he, if_true] at h
                    cases hom : parseObjMembers n (skipWs r3) with
                    | none => rw [hom] at h; exact Option.noConfusion h
                    | some pr3 =>
                      obtain ⟨v3, r4⟩ := pr3
                      rw [hom] at h
                      try simp only [] at h
                      cases v3 with
                      | obj kvs' =>
                        obtain ⟨h1, h2⟩ := Prod.mk.injEq .. ▸ Option.some.inj h
                        have hkvs : (k0, v0) :: kvs' = kvs := by
                          injection h1
                        rw [← hkvs] at hmem
                        rcases List.mem_cons.mp hmem with hhd | htl
                        · have hk : k = k0 := by
                            injection hhd with e1 e2
                          subst hk
                          have hlit := parseStrBody_plain rest0 k r hsb hplain
                          rw [hlit]
                          exact hasOcc_cons _ _ _ (containsSub_self_append k ('"' :: r))
                        · have hrec := ihO (skipWs r3) kvs' r4 (by
                            rw [hom]) k w htl hplain
                          refine containsSub_suffix ?_ hrec
                          refine suffix_comp (⟨[c], rfl⟩ :
                            ∃ u, u ++ rest0 = c :: rest0) ?_
                          refine suffix_comp (parseStrBody_consume rest0 k0 r hsb) ?_
                          refine suffix_comp (hws ▸ suffix_skipWs r) ?_
                          refine suffix_comp (⟨[d], rfl⟩ : ∃ u, u ++ r' = d :: r') ?_
                          refine suffix_comp (suffix_skipWs r') ?_
                          refine suffix_comp ((parsers_consume n).1 _ _ _ hpv) ?_
                          refine suffix_comp (hws2 ▸ suffix_skipWs r'') ?_
                          refine suffix_comp (⟨[e], rfl⟩ : ∃ u, u ++ r3 = e :: r3) ?_
                          exact suffix_skipWs r3
                      | null => exact Option.noConfusion h
                      | bool b => exact Option.noConfusion h
                      | num raw => exact Option.noConfusion h
                      | str t => exact Option.noConfusion h
                      | arr vs => exact Option.noConfusion h
                  | false =>
                    simp only [he, Bool.false_eq_true, if_false] at h
                    cases he2 : e == '\x7d' with
                    | true =>
                      simp only [he2, if_true] at h
                      obtain ⟨h1, h2⟩ := Prod.mk.injEq .. ▸ Option.some.inj h
                      have hkvs : [(k0, v0)] = kvs := by
                        injection h1
                      rw [← hkvs] at hmem
                      rcases List.mem_cons.mp hmem with hhd | htl
                      · have hk : k = k0 := by
                          injection hhd with e1 e2
                        subst hk
                        have hlit := parseStrBody_plain rest0 k r hsb hplain
                        rw [hlit]
                        exact hasOcc_cons _ _ _ (containsSub_self_append k ('"' :: r))
                      · exact absurd htl (List.not_mem_nil _)
                    | false =>
                      simp only [he2, Bool.false_eq_true, if_false] at h
                      exact Option.noConfusion h

theorem parseArrElems_arr : ∀ n s v rest, parseArrElems n s = some (v, rest) →
    ∃ vs, v = Json.arr vs := by
  intro n s v rest h
  cases n with
  | zero => exact Option.noConfusion h
  | succ m =>
    rw [parseArrElems_succ] at h
    cases hpv : parseVal m s with
    | none => rw [hpv] at h; exact Option.noConfusion h
    | some pr =>
      obtain ⟨v0, r⟩ := pr
      rw [hpv] at h
      try simp only [] at h
      cases hws : skipWs r with
      | nil => rw [hws] at h; exact Option.noConfusion h
      | cons d r' =>
        rw [hws] at h
        try simp only [] at h
        cases hd : d == ',' with
        | true =>
          simp only [hd, if_true] at h
          cases hae : parseArrElems m (skipWs r') with
          | none => rw [hae] at h; exact Option.noConfusion h
          | some pr2 =>
            obtain ⟨v2, r''⟩ := pr2
            rw [hae] at h
            try simp only [] at h
            cases v2 with
            | arr vs =>
              obtain ⟨h1, h2⟩ := Prod.mk.injEq .. ▸ Option.some.inj h
              exact ⟨v0 :: vs, h1.symm⟩
            | null => exact Option.noConfusion h
            | bool b => exact Option.noConfusion h
            | num raw => exact Option.noConfusion h
            | str t => exact Option.noConfusion h
            | obj kvs => exact Option.noConfusion h
        | false =>
          simp only [hd, Bool.false_eq_true, if_false] at h
          cases hd2 : d == ']' with
          | true =>
            simp only [hd2, if_true] at h
            obtain ⟨h1, h2⟩ := Prod.mk.injEq .. ▸ Option.some.inj h
            exact ⟨[v0], h1.symm⟩
          | false =>
            simp only [hd2, Bool.false_eq_true, if_false] at h
            exact Option.noConfusion h

theorem parseVal_obj_keys :
    ∀ fuel s kvs rest, parseVal fuel s = some (.obj kvs, rest) →
      ∀ k w, (k, w) ∈ kvs → k.all plainChar = true → containsSub k s = true := by
  intro fuel
  cases fuel with
  | zero =>
    intro s kvs rest h
    exact Option.noConfusion h
  | succ n =>
    intro s kvs rest h k w hmem hplain
    rw [parseVal.eq_def] at h
    cases s with
    | nil => exact Option.noConfusion h
    | cons c rest0 =>
      cases hq : c == '"' with
      | true =>
        simp only [hq, if_true] at h
        cases hsb : parseStrBody rest0 with
        | none => rw [hsb] at h; exact Option.noConfusion h
        | some pr =>
          obtain ⟨p, r⟩ := pr
          rw [hsb] at h
          try simp only [] at h
          obtain ⟨h1, h2⟩ := Prod.mk.injEq .. ▸ Option.some.inj h
          exact Json.noConfusion h1
      | false =>
        simp only [hq, Bool.false_eq_true, if_false] at h
        cases hob : c == '\x7b' with
        | true =>
          simp only [hob, if_true] at h
          cases hws : skipWs rest0 with
          | nil => rw [hws] at h; exact Option.noConfusion h
          | cons d r =>
            rw [hws] at h
            try simp only [] at h
            cases hd : d == '\x7d' with
            | true =>
              simp only [hd, if_true] at h
              obtain ⟨h1, h2⟩ := Prod.mk.injEq .. ▸ Option.some.inj h
              have hkvs : ([] : List (List Char × Json)) = kvs := by
                injection h1
              rw [← hkvs] at hmem
              exact absurd hmem (List.not_mem_nil _)
            | false =>
              simp only [hd, Bool.false_eq_true, if_false] at h
              have hrec := parseObjMembers_keys n (d :: r) kvs rest h k w hmem hplain
              refine containsSub_suffix ?_ hrec
              exact suffix_comp (⟨[c], rfl⟩ : ∃ u, u ++ rest0 = c :: rest0)
                (hws ▸ suffix_skipWs rest0)
        | false =>
          simp only [hob, Bool.false_eq_true, if_false] at h
          cases har : c == '[' with
          | true =>
            simp only [har, if_true] at h
            cases hws : skipWs rest0 with
            | nil => rw [hws] at h; exact Option.noConfusion h
            | cons d r =>
              rw [hws] at h
              try simp only [] at h
              cases hd : d == ']' with
              | true =>
                simp only [hd, if_true] at h
                obtain ⟨h1, h2⟩ := Prod.mk.injEq .. ▸ Option.some.inj h
                exact Json.noConfusion h1
              | false =>
                simp only [hd, Bool.false_eq_true, if_false] at h
                obtain ⟨vs, hvs⟩ := parseArrElems_arr n (d :: r) _ _ h
                exact Json.noConfusion hvs
          | false =>
            simp only [har, Bool.false_eq_true, if_false] at h
            cases ht : c == 't' with
            | true =>
              simp only [ht, if_true] at h
              cases hm : headMatch eqExact ("rue".toList) rest0 with
              | false => rw [hm] at h; exact Option.noConfusion h
              | true =>
                rw [hm] at h
                simp only [if_true] at h
                obtain ⟨h1, h2⟩ := Prod.mk.injEq .. ▸ Option.some.inj h
                exact Json.noConfusion h1
            | false =>
              simp only [ht, Bool.false_eq_true, if_false] at h
              cases hf : c == 'f' with
              | true =>
                simp only [hf, if_true] at h
                cases hm : headMatch eqExact ("alse".toList) rest0 with
                | false => rw [hm] at h; exact Option.noConfusion h
                | true =>
                  rw [hm] at h
                  simp only [if_true] at h
                  obtain ⟨h1, h2⟩ := Prod.mk.injEq .. ▸ Option.some.inj h
                  exact Json.noConfusion h1
              | false =>
                simp only [hf, Bool.false_eq_true, if_false] at h
                cases hn : c == 'n' with
                | true =>
                  simp only [hn, if_true] at h
                  cases hm : headMatch eqExact ("ull".toList) rest0 with
                  | false => rw [hm] at h; exact Option.noConfusion h
                  | true =>
                    rw [hm] at h
                    simp only [if_true] at h
                    obtain ⟨h1, h2⟩ := Prod.mk.injEq .. ▸ Option.some.inj h
                    exact Json.noConfusion h1
                | false =>
                  simp only [hn, Bool.false_eq_true, if_false] at h
                  cases hpn : parseNumber (c :: rest0) with
                  | none => rw [hpn] at h; exact Option.noConfusion h
                  | some pr =>
                    obtain ⟨raw, r⟩ := pr
                    rw [hpn] at h
                    try simp only [] at h
                    obtain ⟨h1, h2⟩ := Prod.mk.injEq .. ▸ Option.some.inj h
                    exact Json.noConfusion h1

theorem parseJson_obj_keys (s : List Char) (kvs : List (List Char × Json))
    (h : parseJson s = some (.obj kvs)) :
    ∀ k w, (k, w) ∈ kvs → k.all plainChar = true → containsSub k s = true := by
  intro k w hmem hplain
  unfold parseJson at h
  cases hpv : parseVal (2 * s.length + 4) (skipWs s) with
  | none => rw [hpv] at h; exact Option.noConfusion h
  | some pr =>
    obtain ⟨v, rest⟩ := pr
    rw [hpv] at h
    try simp only [] at h
    by_cases hrest : skipWs rest = []
    · rw [if_pos hrest] at h
      have hv : v = .obj kvs := Option.some.inj h
      subst hv
      exact containsSub_suffix (suffix_skipWs s)
        (parseVal_obj_keys _ _ kvs rest hpv k w hmem hplain)
    · rw [if_neg hrest] at h
      exact Option.noConfusion h

theorem lookupLast_mem :
    ∀ (kvs : List (List Char × Json)) (k : List Char) (w : Json),
      lookupLast kvs k = some w → ∃ w', (k, w') ∈ kvs := by
  intro kvs
  induction kvs with
  | nil => intro k w h; exact Option.noConfusion h
  | cons e rest ih =>
    intro k w h
    obtain ⟨k', v⟩ := e
    simp only [lookupLast] at h
    cases hl : lookupLast rest k with
    | some w2 =>
      obtain ⟨w', hw⟩ := ih k w2 hl
      exact ⟨w', List.mem_cons_of_mem _ hw⟩
    | none =>
      rw [hl] at h
      try simp only [] at h
      by_cases hk : k' = k
      · subst hk
        exact ⟨v, List.mem_cons_self _ _⟩
      · rw [if_neg hk] at h
        exact Option.noConfusion h

/-- If a parsed JSON value has a truthy `intent` property, then the input
text contains the literal substring `intent` — so the `includes("intent")`
pre-filter of `inheritPreviousIntent` never rejects a turn that would
otherwise qualify. -/
theorem parse_intent_contains (content : List Char) (v : Json)
    (hp : parseJson content = some v)
    (ht : jsTruthy (jsGetD v ("intent".toList)) = true) :
    containsSub ("intent".toList) content = true := by
  cases v with
  | obj kvs =>
    simp only [jsGetD] at ht
    cases hl : lookupLast kvs ("intent".toList) with
    | none => rw [hl] at ht; simp [jsTruthy] at ht
    | some w =>
      rw [hl] at ht
      obtain ⟨w', hmem⟩ := lookupLast_mem kvs _ w hl
      exact parseJson_obj_keys content kvs hp _ w' hmem (by decide)
  | null => simp [jsGetD, jsTruthy] at ht
  | bool b => simp [jsGetD, jsTruthy] at ht
  | num raw => simp [jsGetD, jsTruthy] at ht
  | str t => simp [jsGetD, jsTruthy] at ht
  | arr vs => simp [jsGetD, jsTruthy] at ht

/-- The backwards scan of `inheritPreviousIntent` agrees with the
declarative "nearest qualifying prior assistant turn" specification: the
`includes("intent")` pre-filter is redundant for qualifying turns. -/
theorem inheritAux_eq_spec :
    ∀ (l : List Turn) (c : ClassifiedMessage),
      inheritAux c l =
        match l.findSome? qualifySpec with
        | some jp => { c with intent := jp.1, parameters := mergeParams jp.2 c.parameters }
        | none => c := by
  intro l
  induction l with
  | nil => intro c; rfl
  | cons t rest ih =>
    intro c
    rw [List.findSome?_cons]
    simp only [inheritAux]
    by_cases hcond : t.role = ("assistant".toList) ∧
        containsSub ("intent".toList) t.content = true
    · rw [if_pos hcond]
      have hrole := hcond.1
      cases hp : parseJson t.content with
      | none =>
        have hq : qualifySpec t = none := by
          unfold qualifySpec
          rw [if_pos hrole, hp]
        rw [hq]
        exact ih c
      | some v =>
        by_cases htr : jsTruthy (jsGetD v ("intent".toList)) = true ∧
            ¬ isStrEq (jsGetD v ("intent".toList)) ("other-general".toList) = true
        · have hq : qualifySpec t =
              some (jsGetD v ("intent".toList),
                match jsGetD v ("parameters".toList) with
                | .obj kvs => kvs
                | _ => []) := by
            unfold qualifySpec
            rw [if_pos hrole, hp]
            try simp only [] 
            rw [if_pos htr]
          try simp only []
          rw [hq, if_pos htr]
        · have hq : qualifySpec t = none := by
            unfold qualifySpec
            rw [if_pos hrole, hp]
            try simp only [] 
            rw [if_neg htr]
          try simp only []
          rw [hq, if_neg htr]
          exact ih c
    · rw [if_neg hcond]
      have hq : qualifySpec t = none := by
        unfold qualifySpec
        by_cases hrole : t.role = ("assistant".toList)
        · rw [if_pos hrole]
          cases hp : parseJson t.content with
          | none => rfl
          | some v =>
            try simp only [] 
            rw [if_neg]
            rintro ⟨h1, h2⟩
            exact hcond ⟨hrole, parse_intent_contains _ _ hp h1⟩
        · rw [if_neg hrole]
      rw [hq]
      exact ih c

/-- Claim C1: for every conversation context whose most recent
system/assistant turn solicits an order number or email and every raw
classification whose extracted order-number/email text provides one (the
follow-up predicate `isFollowUpResponse`), the resolver takes the
follow-up branch: it inherits the intent of the nearest prior assistant
turn whose content parses as JSON with a (truthy) non-`other-general`
intent, and the resulting parameter set is the union of the previous
parameters (as defaults) with the newly extracted ones, new values winning
on key collision; with no such turn the classification is unchanged. -/
theorem claim_C1_follow_up_inheritance (url : List Char) (c : ClassifiedMessage)
    (ctx : List Turn) (hne : ctx ≠ []) (hfu : isFollowUpResponse c ctx = true) :
    enrichClassification url c ctx = enrichPost url (inheritPreviousIntent c ctx) ctx ∧
    (match nearestQualifying ctx with
     | some jp =>
        inheritPreviousIntent c ctx =
          { c with intent := jp.1, parameters := mergeParams jp.2 c.parameters }
     | none => inheritPreviousIntent c ctx = c) ∧
    (∀ prev k, lookupLast (mergeParams prev c.parameters) k =
      match lookupLast c.parameters k with
      | some v => some v
      | none => lookupLast prev k) := by
  refine ⟨?_, ?_, ?_⟩
  · unfold enrichClassification
    rw [if_neg (by simp [hne])]
    unfold resolveIntentPhase
    rw [if_pos hfu]
  · unfold nearestQualifying inheritPreviousIntent
    rw [inheritAux_eq_spec ctx.reverse c]
    cases h : ctx.reverse.findSome? qualifySpec with
    | some jp => rfl
    | none => rfl
  · intro prev k
    exact mergeParams_lookup prev c.parameters k

theorem claim_C1_follow_up_inheritance_witness :
    enrichClassification ("https://r.example".toList)
      { intent := Json.str ("other-general".toList),
        parameters := [(("order_number".toList), Json.str ("#1234".toList))],
        language := Json.str ("Spanish".toList) }
      [ ⟨"assistant".toList,
         "\x7b\"intent\":\"order_tracking\",\"parameters\":\x7b\"email\":\"a@b.es\"\x7d\x7d".toList⟩,
        ⟨"assistant".toList, "Dame tu order number".toList⟩ ] =
      enrichPost ("https://r.example".toList)
        (inheritPreviousIntent
          { intent := Json.str ("other-general".toList),
            parameters := [(("order_number".toList), Json.str ("#1234".toList))],
            language := Json.str ("Spanish".toList) }
          [ ⟨"assistant".toList,
             "\x7b\"intent\":\"order_tracking\",\"parameters\":\x7b\"email\":\"a@b.es\"\x7d\x7d".toList⟩,
            ⟨"assistant".toList, "Dame tu order number".toList⟩ ])
        [ ⟨"assistant".toList,
           "\x7b\"intent\":\"order_tracking\",\"parameters\":\x7b\"email\":\"a@b.es\"\x7d\x7d".toList⟩,
          ⟨"assistant".toList, "Dame tu order number".toList⟩ ] ∧
    (inheritPreviousIntent
        { intent := Json.str ("other-general".toList),
          parameters := [(("order_number".toList), Json.str ("#1234".toList))],
          language := Json.str ("Spanish".toList) }
        [ ⟨"assistant".toList,
           "\x7b\"intent\":\"order_tracking\",\"parameters\":\x7b\"email\":\"a@b.es\"\x7d\x7d".toList⟩,
          ⟨"assistant".toList, "Dame tu order number".toList⟩ ]).intent =
      Json.str ("order_tracking".toList) ∧
    getParamStr (enrichClassification ("https://r.example".toList)
      { intent := Json.str ("other-general".toList),
        parameters := [(("order_number".toList), Json.str ("#1234".toList))],
        language := Json.str ("Spanish".toList) }
      [ ⟨"assistant".toList,
         "\x7b\"intent\":\"order_tracking\",\"parameters\":\x7b\"email\":\"a@b.es\"\x7d\x7d".toList⟩,
        ⟨"assistant".toList, "Dame tu order number".toList⟩ ]).parameters
      ("email".toList) = ("a@b.es".toList) := by
  refine ⟨?_, by rfl, by rfl⟩
  exact (claim_C1_follow_up_inheritance ("https://r.example".toList)
    { intent := Json.str ("other-general".toList),
      parameters := [(("order_number".toList), Json.str ("#1234".toList))],
      language := Json.str ("Spanish".toList) }
    [ ⟨"assistant".toList,
       "\x7b\"intent\":\"order_tracking\",\"parameters\":\x7b\"email\":\"a@b.es\"\x7d\x7d".toList⟩,
      ⟨"assistant".toList, "Dame tu order number".toList⟩ ]
    (List.cons_ne_nil _ _) (by decide)).1

/-- The nested keyword conditionals of `classifyNewRequest` compute the
first-match-wins decision table `tableIntent`. -/
theorem newRequestIntent_eq_table : ∀ u, newRequestIntent u = tableIntent u := by
  intro u
  unfold newRequestIntent tableIntent keywordGroups
  by_cases h1 : (containsSub ("pedido".toList) u && (containsSub ("localizar".toList) u || containsSub ("donde".toList) u || containsSub ("buscar".toList) u || containsSub ("track".toList) u || containsSub ("where".toList) u || containsSub ("find".toList) u)) = true
  · rw [if_pos h1, List.find?_cons_of_pos _ (by exact h1)]
    try rfl
  · rw [if_neg h1, List.find?_cons_of_neg _ (by exact h1)]
    by_cases h2 : (containsSub ("devolver".toList) u || containsSub ("cambiar".toList) u || containsSub ("return".toList) u || containsSub ("exchange".toList) u || containsSub ("devolución".toList) u || containsSub ("cambio".toList) u) = true
    · rw [if_pos h2, List.find?_cons_of_pos _ (by exact h2)]
      try rfl
    · rw [if_neg h2, List.find?_cons_of_neg _ (by exact h2)]
      by_cases h3 : (containsSub ("talla".toList) u || containsSub ("tamaño".toList) u || containsSub ("size".toList) u || containsSub ("fit".toList) u || containsSub ("medida".toList) u) = true
      · rw [if_pos h3, List.find?_cons_of_pos _ (by exact h3)]
        try rfl
      · rw [if_neg h3, List.find?_cons_of_neg _ (by exact h3)]
        by_cases h4 : (containsSub ("disponible".toList) u || containsSub ("stock".toList) u || containsSub ("available".toList) u || containsSub ("cuando".toList) u || containsSub ("when".toList) u) = true
        · rw [if_pos h4, List.find?_cons_of_pos _ (by exact h4)]
          try rfl
        · rw [if_neg h4, List.find?_cons_of_neg _ (by exact h4)]
          by_cases h5 : (containsSub ("descuento".toList) u || containsSub ("promo".toList) u || containsSub ("discount".toList) u || containsSub ("offer".toList) u || containsSub ("código".toList) u || containsSub ("code".toList) u) = true
          · rw [if_pos h5, List.find?_cons_of_pos _ (by exact h5)]
            try rfl
          · rw [if_neg h5, List.find?_cons_of_neg _ (by exact h5)]
            by_cases h6 : (containsSub ("factura".toList) u || containsSub ("recibo".toList) u || containsSub ("invoice".toList) u || containsSub ("receipt".toList) u) = true
            · rw [if_pos h6, List.find?_cons_of_pos _ (by exact h6)]
              try rfl
            · rw [if_neg h6, List.find?_cons_of_neg _ (by exact h6)]
              by_cases h7 : (containsSub ("no he recibido".toList) u || containsSub ("no llega".toList) u || containsSub ("haven\x27t received".toList) u || containsSub ("not arrived".toList) u || containsSub ("problema".toList) u || containsSub ("problem".toList) u) = true
              · rw [if_pos h7, List.find?_cons_of_pos _ (by exact h7)]
                try rfl
              · rw [if_neg h7, List.find?_cons_of_neg _ (by exact h7)]
                by_cases h8 : (containsSub ("cambiar dirección".toList) u || containsSub ("nueva dirección".toList) u || containsSub ("change address".toList) u || containsSub ("new address".toList) u || containsSub ("dirección".toList) u || containsSub ("address".toList) u) = true
                · rw [if_pos h8, List.find?_cons_of_pos _ (by exact h8)]
                  try rfl
                · rw [if_neg h8, List.find?_cons_of_neg _ (by exact h8)]
                  by_cases h9 : (containsSub ("actualizar pedido".toList) u || containsSub ("modificar pedido".toList) u || containsSub ("update order".toList) u || containsSub ("modify order".toList) u || containsSub ("cambiar pedido".toList) u || containsSub ("change order".toList) u) = true
                  · rw [if_pos h9, List.find?_cons_of_pos _ (by exact h9)]
                    try rfl
                  · rw [if_neg h9, List.find?_cons_of_neg _ (by exact h9)]
                    rw [List.find?_nil]

/-- Claim C2: for every turn where the follow-up branch does not apply but
the new-request predicate holds (the extracted text contains a fresh-start
phrase and the last system/assistant turn reads as a conclusion), the
resolver resets every parameter to its empty/false default and re-derives
the intent by first-match-wins keyword matching in the fixed priority
order order_tracking, returns_exchange, product_sizing, restock,
promo_code, invoice_request, delivery_issue, change_delivery,
update_order, then other-order when `pedido`/`order` occurs, otherwise
other-general; in particular `otro pedido` plus `track` after a last
assistant turn containing `gracias` resolves to order_tracking with all
parameters at their defaults. -/
theorem claim_C2_new_request_reset (url : List Char) (c : ClassifiedMessage)
    (ctx : List Turn) (hne : ctx ≠ []) (hfu : isFollowUpResponse c ctx = false)
    (hnr : isNewRequest c ctx = true) :
    enrichClassification url c ctx = enrichPost url (classifyNewRequest c) ctx ∧
    classifyNewRequest c =
      { intent := Json.str (tableIntent (lowerStr (userMessageOf c.parameters))),
        parameters := defaultParameters, language := c.language } ∧
    enrichClassification url
      { intent := Json.str ("other-general".toList),
        parameters :=
          [(("order_number".toList),
            Json.str ("quiero buscar otro pedido, track".toList))],
        language := Json.str ("Spanish".toList) }
      [⟨"assistant".toList, "¡Gracias por tu compra!".toList⟩] =
      { intent := Json.str ("order_tracking".toList),
        parameters := defaultParameters,
        language := Json.str ("Spanish".toList) } := by
  refine ⟨?_, ?_, ?_⟩
  · unfold enrichClassification
    rw [if_neg (by simp [hne])]
    unfold resolveIntentPhase
    rw [if_neg (by simp [hfu]), if_pos hnr]
  · unfold classifyNewRequest
    rw [newRequestIntent_eq_table]
  · rfl

theorem claim_C2_new_request_reset_witness :
    enrichClassification ("https://r.example".toList)
      { intent := Json.str ("other-general".toList),
        parameters :=
          [(("order_number".toList),
            Json.str ("quiero buscar otro pedido, track".toList))],
        language := Json.str ("Spanish".toList) }
      [⟨"assistant".toList, "¡Gracias por tu compra!".toList⟩] =
      enrichPost ("https://r.example".toList)
        (classifyNewRequest
          { intent := Json.str ("other-general".toList),
            parameters :=
              [(("order_number".toList),
                Json.str ("quiero buscar otro pedido, track".toList))],
            language := Json.str ("Spanish".toList) })
        [⟨"assistant".toList, "¡Gracias por tu compra!".toList⟩] ∧
    classifyNewRequest
      { intent := Json.str ("other-general".toList),
        parameters :=
          [(("order_number".toList),
            Json.str ("quiero buscar otro pedido, track".toList))],
        language := Json.str ("Spanish".toList) } =
      { intent := Json.str (tableIntent (lowerStr (userMessageOf
          [(("order_number".toList),
            Json.str ("quiero buscar otro pedido, track".toList))]))),
        parameters := defaultParameters,
        language := Json.str ("Spanish".toList) } ∧
    tableIntent (lowerStr ("quiero buscar otro pedido, track".toList)) =
      ("order_tracking".toList) := by
  have h := claim_C2_new_request_reset ("https://r.example".toList)
    { intent := Json.str ("other-general".toList),
      parameters :=
        [(("order_number".toList),
          Json.str ("quiero buscar otro pedido, track".toList))],
      language := Json.str ("Spanish".toList) }
    [⟨"assistant".toList, "¡Gracias por tu compra!".toList⟩]
    (List.cons_ne_nil _ _) (by decide) (by decide)
  exact ⟨h.1, h.2.1, by rfl⟩

/-- Claim C3: whenever the model call behind the classifier fails
(including after retries are exhausted), or the returned text neither
parses as JSON nor yields a parsable brace-delimited extract, or the
parsed value lacks a truthy `intent` or `parameters`, `classifyMessage`
returns exactly the default classification (intent `other-general`, all
parameters empty/false, language `English`).  `classifyMessage` is a total
function of its inputs, so it never throws. -/
theorem claim_C3_classifier_default :
    (∀ url message ctx, classifyMessage .fail url message ctx = getDefaultClassification) ∧
    (∀ url content message ctx, parseOrExtract content = none →
      classifyMessage (.ok content) url message ctx = getDefaultClassification) ∧
    (∀ url content message ctx v, parseOrExtract content = some v →
      validClassification v = false →
      classifyMessage (.ok content) url message ctx = getDefaultClassification) := by
  refine ⟨?_, ?_, ?_⟩
  · intro url message ctx
    by_cases hm : message = []
    · simp [classifyMessage, hm]
    · simp [classifyMessage, hm]
  · intro url content message ctx hp
    by_cases hm : message = []
    · simp [classifyMessage, hm]
    · simp [classifyMessage, hm, hp]
  · intro url content message ctx v hp hv
    by_cases hm : message = []
    · simp [classifyMessage, hm]
    · simp [classifyMessage, hm, hp, hv]

theorem claim_C3_classifier_default_witness :
    classifyMessage .fail ("u".toList) ("hola".toList) none = getDefaultClassification ∧
    classifyMessage (.ok ("the model said no json at all".toList)) ("u".toList)
      ("hola".toList) none = getDefaultClassification ∧
    classifyMessage (.ok ("\x7b\"foo\":1\x7d".toList)) ("u".toList)
      ("hola".toList) none = getDefaultClassification := by
  refine ⟨?_, ?_, ?_⟩
  · exact claim_C3_classifier_default.1 ("u".toList) ("hola".toList) none
  · exact claim_C3_classifier_default.2.1 ("u".toList)
      ("the model said no json at all".toList) ("hola".toList) none (by rfl)
  · exact claim_C3_classifier_default.2.2 ("u".toList) ("\x7b\"foo\":1\x7d".toList)
      ("hola".toList) none
      (Json.obj [(("foo".toList), Json.num ("1".toList))]) (by rfl) (by rfl)

theorem getParamStr_setParam_same (p : ParamMap) (k v : List Char) :
    getParamStr (setParam p k (.str v)) k = v := by
  unfold getParamStr setParam
  rw [lookupLast_append]
  have h1 : lookupLast [(k, Json.str v)] k = some (.str v) := by
    simp [lookupLast]
  rw [h1]

theorem lookupLast_setParam_other (p : ParamMap) (k k' : List Char) (v : Json)
    (h : k' ≠ k) : lookupLast (setParam p k v) k' = lookupLast p k' := by
  unfold setParam
  rw [lookupLast_append]
  have h1 : lookupLast [(k, v)] k' = none := by
    simp only [lookupLast]
    rw [if_neg (fun he => h he.symm)]
  rw [h1]

theorem getParamStr_setParam_other (p : ParamMap) (k k' : List Char) (v : Json)
    (h : k' ≠ k) : getParamStr (setParam p k v) k' = getParamStr p k' := by
  unfold getParamStr
  rw [lookupLast_setParam_other p k k' v h]

theorem findOrderNumber_ne_nil : ∀ s d, findOrderNumber s = some d → d ≠ [] := by
  intro s
  induction s with
  | nil => intro d h; exact Option.noConfusion h
  | cons c cs ih =>
    intro d h
    simp only [findOrderNumber] at h
    by_cases hc : (c == '#') = true
    · rw [if_pos hc] at h
      by_cases hlen : (cs.takeWhile Char.isDigit).length ≥ 4
      · rw [if_pos hlen] at h
        have hd : d = cs.takeWhile Char.isDigit := (Option.some.inj h).symm
        intro hnil
        rw [hd] at hnil
        rw [hnil] at hlen
        simp at hlen
      · rw [if_neg hlen] at h
        exact ih d h
    · rw [if_neg hc] at h
      exact ih d h

theorem emailMatchAt_ne_nil (s m : List Char) (h : emailMatchAt s = some m) : m ≠ [] := by
  unfold emailMatchAt at h
  by_cases he : (s.takeWhile emailLocalChar).isEmpty = true
  · rw [if_pos he] at h
    exact Option.noConfusion h
  · rw [if_neg he] at h
    cases hd : s.drop (s.takeWhile emailLocalChar).length with
    | nil => rw [hd] at h; exact Option.noConfusion h
    | cons c rest =>
      rw [hd] at h
      try simp only [] at h
      by_cases hat : (c == '@') = true
      · rw [if_pos hat] at h
        cases ht : emailTail rest (rest.takeWhile emailDomainChar).length with
        | none => rw [ht] at h; exact Option.noConfusion h
        | some suffix =>
          rw [ht] at h
          try simp only [] at h
          have hm : m = s.takeWhile emailLocalChar ++ '@' :: suffix :=
            (Option.some.inj h).symm
          rw [hm]
          cases hr : s.takeWhile emailLocalChar with
          | nil => rw [hr] at he; simp at he
          | cons a as => simp
      · rw [if_neg hat] at h
        exact Option.noConfusion h

theorem firstEmail_ne_nil : ∀ s m, firstEmail s = some m → m ≠ [] := by
  intro s
  induction s with
  | nil => intro m h; exact Option.noConfusion h
  | cons c cs ih =>
    intro m h
    simp only [firstEmail] at h
    cases hm : emailMatchAt (c :: cs) with
    | some m2 =>
      rw [hm] at h
      have : m = m2 := (Option.some.inj h).symm
      rw [this]
      exact emailMatchAt_ne_nil _ _ hm
    | none =>
      rw [hm] at h
      exact ih m h

theorem fillOrderStep_order (p : ParamMap) (content : List Char) :
    getParamStr (fillOrderStep p content) ("order_number".toList) =
      if getParamStr p ("order_number".toList) = []
      then (findOrderNumber content).getD []
      else getParamStr p ("order_number".toList) := by
  unfold fillOrderStep
  by_cases h : getParamStr p ("order_number".toList) = []
  · rw [if_pos h, if_pos h]
    cases hfo : findOrderNumber content with
    | some d => simp [getParamStr_setParam_same]
    | none => exact h
  · rw [if_neg h, if_neg h]

theorem fillOrderStep_other (p : ParamMap) (content : List Char) (k : List Char)
    (h : k ≠ ("order_number".toList)) :
    getParamStr (fillOrderStep p content) k = getParamStr p k := by
  unfold fillOrderStep
  by_cases hg : getParamStr p ("order_number".toList) = []
  · rw [if_pos hg]
    cases hfo : findOrderNumber content with
    | some d => exact getParamStr_setParam_other _ _ _ _ h
    | none => rfl
  · rw [if_neg hg]

theorem fillEmailStep_email (p : ParamMap) (content : List Char) :
    getParamStr (fillEmailStep p content) ("email".toList) =
      if getParamStr p ("email".toList) = []
      then (firstEmail content).getD []
      else getParamStr p ("email".toList) := by
  unfold fillEmailStep
  by_cases h : getParamStr p ("email".toList) = []
  · rw [if_pos h, if_pos h]
    cases hfo : firstEmail content with
    | some e => simp [getParamStr_setParam_same]
    | none => exact h
  · rw [if_neg h, if_neg h]

theorem fillEmailStep_other (p : ParamMap) (content : List Char) (k : List Char)
    (h : k ≠ ("email".toList)) :
    getParamStr (fillEmailStep p content) k = getParamStr p k := by
  unfold fillEmailStep
  by_cases hg : getParamStr p ("email".toList) = []
  · rw [if_pos hg]
    cases hfo : firstEmail content with
    | some e => exact getParamStr_setParam_other _ _ _ _ h
    | none => rfl
  · rw [if_neg hg]

theorem userContents_cons_user (t : Turn) (rest : List Turn)
    (h : t.role = ("user".toList)) :
    userContents (t :: rest) = t.content :: userContents rest := by
  simp only [userContents, List.filter_cons]
  rw [if_pos (by simpa using h)]
  rfl

theorem userContents_cons_other (t : Turn) (rest : List Turn)
    (h : ¬ t.role = ("user".toList)) :
    userContents (t :: rest) = userContents rest := by
  simp only [userContents, List.filter_cons]
  rw [if_neg (by simpa using h)]

theorem fillLoop_order : ∀ (ctx : List Turn) (p : ParamMap),
    getParamStr (fillLoop p ctx) ("order_number".toList) =
      if getParamStr p ("order_number".toList) = []
      then ((userContents ctx).findSome? findOrderNumber).getD []
      else getParamStr p ("order_number".toList) := by
  intro ctx
  induction ctx with
  | nil =>
    intro p
    by_cases h : getParamStr p ("order_number".toList) = []
    · rw [if_pos h]; exact h
    · rw [if_neg h]; rfl
  | cons t rest ih =>
    intro p
    simp only [fillLoop]
    by_cases hrole : t.role = ("user".toList)
    · rw [if_pos hrole, userContents_cons_user t rest hrole, List.findSome?_cons]
      have hON2 : getParamStr (fillEmailStep (fillOrderStep p t.content) t.content)
          ("order_number".toList) =
          if getParamStr p ("order_number".toList) = []
          then (findOrderNumber t.content).getD []
          else getParamStr p ("order_number".toList) := by
        rw [fillEmailStep_other _ _ _ (by decide), fillOrderStep_order]
      by_cases hbrk : getParamStr (fillEmailStep (fillOrderStep p t.content) t.content)
          ("order_number".toList) ≠ [] ∧
          getParamStr (fillEmailStep (fillOrderStep p t.content) t.content)
          ("email".toList) ≠ []
      · rw [if_pos hbrk, hON2]
        by_cases hON : getParamStr p ("order_number".toList) = []
        · rw [if_pos hON, if_pos hON]
          cases hfo : findOrderNumber t.content with
          | some d => rfl
          | none =>
            exfalso
            apply hbrk.1
            rw [hON2, if_pos hON, hfo]
            rfl
        · rw [if_neg hON, if_neg hON]
      · rw [if_neg hbrk, ih, hON2]
        by_cases hON : getParamStr p ("order_number".toList) = []
        · rw [if_pos hON, if_pos hON]
          cases hfo : findOrderNumber t.content with
          | some d =>
            have hd : d ≠ [] := findOrderNumber_ne_nil _ _ hfo
            simp [hd]
          | none => simp
        · rw [if_neg hON, if_neg hON, if_neg hON]
    · rw [if_neg hrole, userContents_cons_other t rest hrole]
      exact ih p

theorem fillLoop_email : ∀ (ctx : List Turn) (p : ParamMap),
    getParamStr (fillLoop p ctx) ("email".toList) =
      if getParamStr p ("email".toList) = []
      then ((userContents ctx).findSome? firstEmail).getD []
      else getParamStr p ("email".toList) := by
  intro ctx
  induction ctx with
  | nil =>
    intro p
    by_cases h : getParamStr p ("email".toList) = []
    · rw [if_pos h]; exact h
    · rw [if_neg h]; rfl
  | cons t rest ih =>
    intro p
    simp only [fillLoop]
    by_cases hrole : t.role = ("user".toList)
    · rw [if_pos hrole, userContents_cons_user t rest hrole, List.findSome?_cons]
      have hEM2 : getParamStr (fillEmailStep (fillOrderStep p t.content) t.content)
          ("email".toList) =
          if getParamStr p ("email".toList) = []
          then (firstEmail t.content).getD []
          else getParamStr p ("email".toList) := by
        rw [fillEmailStep_email, fillOrderStep_other _ _ _ (by decide)]
      by_cases hbrk : getParamStr (fillEmailStep (fillOrderStep p t.content) t.content)
          ("order_number".toList) ≠ [] ∧
          getParamStr (fillEmailStep (fillOrderStep p t.content) t.content)
          ("email".toList) ≠ []
      · rw [if_pos hbrk, hEM2]
        by_cases hEM : getParamStr p ("email".toList) = []
        · rw [if_pos hEM, if_pos hEM]
          cases hfo : firstEmail t.content with
          | some e => rfl
          | none =>
            exfalso
            apply hbrk.2
            rw [hEM2, if_pos hEM, hfo]
            rfl
        · rw [if_neg hEM, if_neg hEM]
      · rw [if_neg hbrk, ih, hEM2]
        by_cases hEM : getParamStr p ("email".toList) = []
        · rw [if_pos hEM, if_pos hEM]
          cases hfo : firstEmail t.content with
          | some e =>
            have he : e ≠ [] := firstEmail_ne_nil _ _ hfo
            simp [he]
          | none => simp
        · rw [if_neg hEM, if_neg hEM, if_neg hEM]
    · rw [if_neg hrole, userContents_cons_other t rest hrole]
      exact ih p

theorem fillLoop_frame : ∀ (ctx : List Turn) (p : ParamMap) (k : List Char),
    k ≠ ("order_number".toList) → k ≠ ("email".toList) →
    getParamStr (fillLoop p ctx) k = getParamStr p k := by
  intro ctx
  induction ctx with
  | nil => intro p k _ _; rfl
  | cons t rest ih =>
    intro p k h1 h2
    simp only [fillLoop]
    by_cases hrole : t.role = ("user".toList)
    · rw [if_pos hrole]
      have hstep : getParamStr (fillEmailStep (fillOrderStep p t.content) t.content) k
          = getParamStr p k := by
        rw [fillEmailStep_other _ _ _ h2, fillOrderStep_other _ _ _ h1]
      by_cases hbrk : getParamStr (fillEmailStep (fillOrderStep p t.content) t.content)
          ("order_number".toList) ≠ [] ∧
          getParamStr (fillEmailStep (fillOrderStep p t.content) t.content)
          ("email".toList) ≠ []
      · rw [if_pos hbrk, hstep]
      · rw [if_neg hbrk, ih _ k h1 h2, hstep]
    · rw [if_neg hrole]
      exact ih p k h1 h2

theorem fillLoop_filter : ∀ (ctx : List Turn) (p : ParamMap),
    fillLoop p ctx = fillLoop p (ctx.filter (fun t => t.role = ("user".toList))) := by
  intro ctx
  induction ctx with
  | nil => intro p; rfl
  | cons t rest ih =>
    intro p
    by_cases hrole : t.role = ("user".toList)
    · have hf : (t :: rest).filter (fun t => t.role = ("user".toList)) =
          t :: rest.filter (fun t => t.role = ("user".toList)) := by
        simp [List.filter_cons, hrole]
      rw [hf]
      simp only [fillLoop]
      rw [if_pos hrole, if_pos hrole]
      by_cases hbrk : getParamStr (fillEmailStep (fillOrderStep p t.content) t.content)
          ("order_number".toList) ≠ [] ∧
          getParamStr (fillEmailStep (fillOrderStep p t.content) t.content)
          ("email".toList) ≠ []
      · rw [if_pos hbrk, if_pos hbrk]
      · rw [if_neg hbrk, if_neg hbrk, ih]
    · have hf : (t :: rest).filter (fun t => t.role = ("user".toList)) =
          rest.filter (fun t => t.role = ("user".toList)) := by
        simp only [List.filter_cons]
        rw [if_neg (by simpa using hrole)]
      rw [hf]
      simp only [fillLoop]
      rw [if_neg hrole, ih]

/-- Reads of a key other than `order_number` and `email` pass through the
backfill unchanged. -/
theorem extractOrder_getParam_other (c : ClassifiedMessage) (ctx : List Turn) (k : List Char)
    (h1 : k ≠ ("order_number".toList)) (h2 : k ≠ ("email".toList)) :
    getParamStr (extractOrderInfoFromContext c ctx).parameters k
      = getParamStr c.parameters k := by
  unfold extractOrderInfoFromContext
  by_cases hg : getParamStr c.parameters ("order_number".toList) = [] ∨
      getParamStr c.parameters ("email".toList) = []
  · rw [if_pos hg]
    exact fillLoop_frame ctx c.parameters k h1 h2
  · rw [if_neg hg]

/-- Claim C4: whenever `order_number` or `email` is still empty, the
backfill of `extractOrderInfoFromContext` (1) depends only on the
user-role turns of the context, in original order — so a system- or
assistant-authored turn never populates these parameters; (2) fills a
still-empty `order_number` with the first `#`-digit-run match across the
user turns; (3) fills a still-empty `email` with the first email-pattern
match across the user turns; (4) leaves every other parameter, (5) the
intent and (6) the language unchanged. -/
theorem claim_C4_backfill_user_turns (c : ClassifiedMessage) (ctx : List Turn) :
    extractOrderInfoFromContext c ctx
        = extractOrderInfoFromContext c (ctx.filter (fun t => t.role = ("user".toList)))
    ∧ getParamStr (extractOrderInfoFromContext c ctx).parameters ("order_number".toList)
        = (if getParamStr c.parameters ("order_number".toList) = []
           then (firstOrderIn ctx).getD []
           else getParamStr c.parameters ("order_number".toList))
    ∧ getParamStr (extractOrderInfoFromContext c ctx).parameters ("email".toList)
        = (if getParamStr c.parameters ("email".toList) = []
           then (firstEmailIn ctx).getD []
           else getParamStr c.parameters ("email".toList))
    ∧ (∀ k : List Char, k ≠ ("order_number".toList) → k ≠ ("email".toList) →
         getParamStr (extractOrderInfoFromContext c ctx).parameters k
           = getParamStr c.parameters k)
    ∧ (extractOrderInfoFromContext c ctx).intent = c.intent
    ∧ (extractOrderInfoFromContext c ctx).language = c.language := by
  refine ⟨?_, ?_, ?_, fun k h1 h2 => extractOrder_getParam_other c ctx k h1 h2, ?_, ?_⟩ <;>
    unfold extractOrderInfoFromContext <;>
    by_cases hg : getParamStr c.parameters ("order_number".toList) = [] ∨
        getParamStr c.parameters ("email".toList) = []
  · rw [if_pos hg, if_pos hg, fillLoop_filter ctx c.parameters]
  · rw [if_neg hg, if_neg hg]
  · rw [if_pos hg]
    exact fillLoop_order ctx c.parameters
  · rw [if_neg hg]
    push_neg at hg
    rw [if_neg hg.1]
  · rw [if_pos hg]
    exact fillLoop_email ctx c.parameters
  · rw [if_neg hg]
    push_neg at hg
    rw [if_neg hg.2]
  · rw [if_pos hg]
  · rw [if_neg hg]
  · rw [if_pos hg]
  · rw [if_neg hg]

/-- Witness for claim C4 at a concrete input: the order number comes from
the first user turn, the email from the second, the system turn's
`#99999` and `spam@evil.com` are ignored, and an unrelated parameter is
untouched. -/
theorem claim_C4_backfill_user_turns_witness :
    getParamStr (extractOrderInfoFromContext c4ex c4ctx).parameters ("order_number".toList)
        = ("12345".toList)
    ∧ getParamStr (extractOrderInfoFromContext c4ex c4ctx).parameters ("email".toList)
        = ("a.b@c.d.es".toList)
    ∧ getParamStr (extractOrderInfoFromContext c4ex c4ctx).parameters ("product_name".toList)
        = getParamStr c4ex.parameters ("product_name".toList) := by
  refine ⟨?_, ?_, (claim_C4_backfill_user_turns c4ex c4ctx).2.2.2.1
    ("product_name".toList) (by decide) (by decide)⟩
  · rw [(claim_C4_backfill_user_turns c4ex c4ctx).2.1]
    rfl
  · rw [(claim_C4_backfill_user_turns c4ex c4ctx).2.2.1]
    rfl

/-- The scanning loop of `extractTrackingFromContext` computes the first
turn-wise `findSome?` of URL-match followed by first-numeric-segment. -/
theorem trackingScan_eq (ctx : List Turn) : trackingScan ctx = trackSpec ctx := by
  induction ctx with
  | nil => rfl
  | cons t rest ih =>
    simp only [trackingScan, trackSpec, List.findSome?_cons]
    cases hu : findTrackingUrl t.content with
    | none =>
      simp only [Option.bind]
      exact ih
    | some u =>
      cases hn : firstNumericSegment u with
      | none =>
        simp only [Option.bind, hn]
        exact ih
      | some n =>
        simp only [Option.bind, hn]

/-- The tracking extraction never changes the intent. -/
theorem extractTracking_intent (c : ClassifiedMessage) (ctx : List Turn) :
    (extractTrackingFromContext c ctx).intent = c.intent := by
  unfold extractTrackingFromContext
  split <;> rfl

/-- Claim C5 (counterexample to the frozen wording): on a context whose
first matching turn's URL is `https://t.co/55/x/999`, the code sets
`tracking_number` to `"55"` — the *first* purely-numeric path segment —
while the trailing path segment of that same URL is the (also purely
numeric) `"999"` that the claim's wording prescribes. -/
theorem claim_C5_tracking_trailing_counterexample :
    getParamStr (extractTrackingFromContext c5ex c5ctx).parameters ("tracking_number".toList)
        = ("55".toList)
    ∧ findTrackingUrl ("Track it [here](https://t.co/55/x/999)".toList)
        = some ("https://t.co/55/x/999".toList)
    ∧ lastSegment ("https://t.co/55/x/999".toList) = some ("999".toList)
    ∧ allDigits1 ("999".toList) = true
    ∧ ("55".toList) ≠ ("999".toList) := by
  exact ⟨rfl, rfl, rfl, rfl, by decide⟩

/-- Claim C5 (amended): the tracking scan returns the **first**
purely-numeric path segment of the first context turn whose markdown link
yields one (turns whose matched link has no numeric segment are skipped);
when some turn yields a segment, it overwrites any classifier-provided
`tracking_number`, and when none does the classification is unchanged;
under a resolved `delivery_issue` intent the enrichment phase applies
exactly this extraction, and the later backfill leaves the extracted
value in place. -/
theorem claim_C5_tracking_first_numeric (url : List Char) (c : ClassifiedMessage)
    (ctx : List Turn) :
    trackingScan ctx = trackSpec ctx
    ∧ (∀ n, trackSpec ctx = some n →
         getParamStr (extractTrackingFromContext c ctx).parameters ("tracking_number".toList)
           = n)
    ∧ (trackSpec ctx = none → extractTrackingFromContext c ctx = c)
    ∧ (∀ n, isStrEq c.intent ("delivery_issue".toList) = true → trackSpec ctx = some n →
         getParamStr (enrichPost url c ctx).parameters ("tracking_number".toList) = n) := by
  refine ⟨trackingScan_eq ctx, ?_, ?_, ?_⟩
  · intro n h
    unfold extractTrackingFromContext
    rw [trackingScan_eq ctx, h]
    exact getParamStr_setParam_same c.parameters _ (n)
  · intro h
    unfold extractTrackingFromContext
    rw [trackingScan_eq ctx, h]
  · intro n hint htr
    have hce : extractTrackingFromContext c ctx
        = ClassifiedMessage.mk c.intent
            (setParam c.parameters ("tracking_number".toList) (.str n)) c.language := by
      unfold extractTrackingFromContext
      rw [trackingScan_eq ctx, htr]
    have hci : c.intent = Json.str ("delivery_issue".toList) := by
      cases hi : c.intent with
      | str t =>
        rw [hi] at hint
        simp only [isStrEq, decide_eq_true_eq] at hint
        rw [hint]
      | null => rw [hi] at hint; simp [isStrEq] at hint
      | bool b => rw [hi] at hint; simp [isStrEq] at hint
      | num r => rw [hi] at hint; simp [isStrEq] at hint
      | arr xs => rw [hi] at hint; simp [isStrEq] at hint
      | obj kvs => rw [hi] at hint; simp [isStrEq] at hint
    have hnr : ¬ isStrEq c.intent ("returns_exchange".toList) = true := by
      rw [hci]
      simp [isStrEq]
    have henrich : enrichPost url c ctx
        = extractOrderInfoFromContext
            (ClassifiedMessage.mk c.intent
              (setParam c.parameters ("tracking_number".toList) (.str n)) c.language)
            ctx := by
      simp only [enrichPost]
      rw [if_pos hint, hce]
      simp only []
      rw [if_neg hnr]
    rw [henrich,
      extractOrder_getParam_other _ ctx ("tracking_number".toList) (by decide) (by decide)]
    exact getParamStr_setParam_same c.parameters _ (n)

/-- Witness for the amended claim C5 at a concrete input: the scan of the
example context yields `"55"`, both at the extraction itself and through
the full post-branch enrichment under a `delivery_issue` intent. -/
theorem claim_C5_tracking_first_numeric_witness :
    getParamStr (extractTrackingFromContext c5ex c5ctx).parameters ("tracking_number".toList)
        = ("55".toList)
    ∧ getParamStr (enrichPost [] c5ex c5ctx).parameters ("tracking_number".toList)
        = ("55".toList) := by
  exact ⟨(claim_C5_tracking_first_numeric [] c5ex c5ctx).2.1 ("55".toList) rfl,
         (claim_C5_tracking_first_numeric [] c5ex c5ctx).2.2.2 ("55".toList) rfl rfl⟩

/-- Claim C7: for intent `conversation_end`, `generateFinalAnswer`
returns the cached canned conversation-end reply for the requested
language, for every combination of parameters, commerce data, user
message, context and size charts — and entirely independently of the
language-model outcome (so the model is never consulted). -/
theorem claim_C7_conversation_end_cached (llm llm2 : LLMOutcome) (params params2 : ParamMap)
    (data data2 : Json) (msg msg2 : List Char) (ctx ctx2 : List Turn)
    (language : Option (List Char)) (sc sc2 : Option (List Char)) :
    generateFinalAnswer llm ("conversation_end".toList) params data msg ctx language sc
        = .ok (getLanguageSpecificResponse conversationEndEs conversationEndEn
            (langOrDefault language))
    ∧ generateFinalAnswer llm ("conversation_end".toList) params data msg ctx language sc
        = generateFinalAnswer llm2 ("conversation_end".toList) params2 data2 msg2 ctx2
            language sc2 := by
  exact ⟨rfl, rfl⟩

/-- Claim C8 (counterexample to the frozen wording): a `REQUEST_DENIED`
status does throw inside the `try` block of `validateAddress`, but that
throw is caught by the function's own `catch`, so the caller receives the
empty shape rather than an error. -/
theorem claim_C8_request_denied_counterexample :
    validateAddressTry (.ok ("REQUEST_DENIED".toList) [("Calle Mayor 1, Madrid".toList)])
        = .error ("Google Maps API request denied".toList)
    ∧ validateAddress (.ok ("REQUEST_DENIED".toList) [("Calle Mayor 1, Madrid".toList)])
        ("Calle Mayor 1".toList)
        = emptyAddressResult := by
  exact ⟨rfl, rfl⟩

/-- Claim C8 (amended): for a non-empty address and a well-formed,
non-denied geocoder response, `validateAddress` maps the candidate list to
its result shape — head formatted address (empty when there are zero
candidates), `multipleCandidates` true exactly for two or more, and the
ordered candidate list; a fetch-level failure yields the empty shape, and
a `REQUEST_DENIED` status is caught by the function's own `catch` and
yields the empty shape as well, so the caller always receives a
well-formed result and never an exception. -/
theorem claim_C8_validate_address_mapping (g : GeoOutcome) (address : List Char) :
    (address = [] → validateAddress g address = emptyAddressResult)
    ∧ (∀ status candidates, g = .ok status candidates →
        status ≠ ("REQUEST_DENIED".toList) → address ≠ [] →
        validateAddress g address
          = { formattedAddress := (candidates.head?).getD [],
              multipleCandidates := decide (candidates.length > 1),
              addressCandidates := candidates })
    ∧ (g = .fetchFail → validateAddress g address = emptyAddressResult)
    ∧ (∀ status candidates, g = .ok status candidates →
        status = ("REQUEST_DENIED".toList) →
        validateAddress g address = emptyAddressResult) := by
  refine ⟨?_, ?_, ?_, ?_⟩
  · intro h
    unfold validateAddress
    rw [if_pos h]
  · intro status candidates hg hs ha
    unfold validateAddress
    rw [if_neg ha, hg]
    unfold validateAddressTry
    simp only []
    rw [if_neg hs]
  · intro hg
    rw [hg]
    unfold validateAddress
    by_cases ha : address = []
    · rw [if_pos ha]
    · rw [if_neg ha]
      rfl
  · intro status candidates hg hs
    rw [hg]
    unfold validateAddress
    by_cases ha : address = []
    · rw [if_pos ha]
    · rw [if_neg ha]
      unfold validateAddressTry
      simp only []
      rw [if_pos hs]

/-- Witness for the amended claim C8 at a concrete input: two candidates
produce `multipleCandidates := true` with both strings in order, and the
first one as the formatted address. -/
theorem claim_C8_validate_address_mapping_witness :
    validateAddress (.ok ("OK".toList) [("A St".toList), ("B St".toList)]) ("x".toList)
      = { formattedAddress := ("A St".toList), multipleCandidates := true,
          addressCandidates := [("A St".toList), ("B St".toList)] } := by
  have h := (claim_C8_validate_address_mapping
      (.ok ("OK".toList) [("A St".toList), ("B St".toList)]) ("x".toList)).2.1
      ("OK".toList) [("A St".toList), ("B St".toList)] rfl (by decide) (by decide)
  exact h

/-- The dispatch of the message route at a resolved `other-order` intent
reduces to the order-identity guard. -/
theorem intentHandler_other_order (parameters : ParamMap) (language : List Char) :
    intentHandler (.str ("other-order".toList)) parameters language
      = if getParamStr parameters ("order_number".toList) = [] ∨
           getParamStr parameters ("email".toList) = [] then
          .respond (noOrderInfoText language)
        else
          .fetchOrderThenGenerate (getParamStr parameters ("order_number".toList))
            (getParamStr parameters ("email".toList)) := rfl

/-- Claim C9: with a resolved `other-order` intent, a missing (empty)
`order_number` or `email` makes the route answer with the canned
request-for-information string in the detected language — no commerce
fetch, no model call; only when both are present does it fetch the order
and call the answer generator.  The canned string is the Spanish one for
`"Spanish"` and the English one for every other language value. -/
theorem claim_C9_other_order_guard (parameters : ParamMap) (language : List Char) :
    ((getParamStr parameters ("order_number".toList) = [] ∨
      getParamStr parameters ("email".toList) = []) →
      intentHandler (.str ("other-order".toList)) parameters language
        = .respond (noOrderInfoText language))
    ∧ (getParamStr parameters ("order_number".toList) ≠ [] →
       getParamStr parameters ("email".toList) ≠ [] →
       intentHandler (.str ("other-order".toList)) parameters language
         = .fetchOrderThenGenerate (getParamStr parameters ("order_number".toList))
             (getParamStr parameters ("email".toList)))
    ∧ noOrderInfoText ("Spanish".toList)
        = ("Para ayudarte mejor con tu consulta sobre el pedido, necesito el número de pedido (tipo #12345) y tu email 😊".toList)
    ∧ (language ≠ ("Spanish".toList) →
        noOrderInfoText language
          = ("To better help you with your order-related query, I need your order number (like #12345) and email 😊".toList)) := by
  refine ⟨?_, ?_, rfl, ?_⟩
  · intro h
    rw [intentHandler_other_order, if_pos h]
  · intro h1 h2
    rw [intentHandler_other_order, if_neg (not_or.mpr ⟨h1, h2⟩)]
  · intro h
    unfold noOrderInfoText
    rw [if_neg h]

/-- Witness for claim C9 at concrete inputs: empty default parameters get
the canned Spanish reply; a filled order number and email get the
fetch-then-generate action. -/
theorem claim_C9_other_order_guard_witness :
    intentHandler (.str ("other-order".toList)) defaultParameters ("Spanish".toList)
        = .respond (noOrderInfoText ("Spanish".toList))
    ∧ intentHandler (.str ("other-order".toList))
        [(("order_number".toList), .str ("12345".toList)),
         (("email".toList), .str ("a@b.es".toList))]
        ("English".toList)
        = .fetchOrderThenGenerate ("12345".toList) ("a@b.es".toList) := by
  refine ⟨(claim_C9_other_order_guard defaultParameters ("Spanish".toList)).1 (Or.inl rfl), ?_⟩
  exact (claim_C9_other_order_guard
      [(("order_number".toList), .str ("12345".toList)),
       (("email".toList), .str ("a@b.es".toList))]
      ("English".toList)).2.1 (by decide) (by decide)

/-- The intent-inheritance loop never changes the language. -/
theorem inheritAux_language (c : ClassifiedMessage) :
    ∀ ctx : List Turn, (inheritAux c ctx).language = c.language := by
  intro ctx
  induction ctx with
  | nil => rfl
  | cons t rest ih =>
    simp only [inheritAux]
    split
    · split
      · split
        · rfl
        · exact ih
      · exact ih
    · exact ih

/-- The branch phase of the resolver never changes the language. -/
theorem resolveIntentPhase_language (c : ClassifiedMessage) (ctx : List Turn) :
    (resolveIntentPhase c ctx).language = c.language := by
  unfold resolveIntentPhase
  split
  · exact inheritAux_language c ctx.reverse
  · split
    · rfl
    · split
      · exact inheritAux_language c ctx.reverse
      · rfl

/-- The tracking extraction never changes the language. -/
theorem extractTracking_language (c : ClassifiedMessage) (ctx : List Turn) :
    (extractTrackingFromContext c ctx).language = c.language := by
  unfold extractTrackingFromContext
  split <;> rfl

/-- The order/email backfill never changes the language. -/
theorem extractOrder_language (c : ClassifiedMessage) (ctx : List Turn) :
    (extractOrderInfoFromContext c ctx).language = c.language := by
  unfold extractOrderInfoFromContext
  split <;> rfl

/-- The post-branch phases of the resolver never change the language. -/
theorem enrichPost_language (url : List Char) (c : ClassifiedMessage) (ctx : List Turn) :
    (enrichPost url c ctx).language = c.language := by
  simp only [enrichPost]
  rw [extractOrder_language]
  have h3 : ∀ (d : ClassifiedMessage) (b : Bool),
      (if isStrEq d.intent ("returns_exchange".toList) = true then
        ClassifiedMessage.mk d.intent
          (setParam d.parameters ("returns_website_sent".toList) (Json.bool b)) d.language
       else d).language = d.language := by
    intro d b
    split <;> rfl
  split
  · exact (h3 (extractTrackingFromContext c ctx) _).trans (extractTracking_language c ctx)
  · exact h3 c _

/-- The whole resolver never changes the language. -/
theorem enrich_language (url : List Char) (c : ClassifiedMessage) (ctx : List Turn) :
    (enrichClassification url c ctx).language = c.language := by
  unfold enrichClassification
  split
  · rfl
  · rw [enrichPost_language, resolveIntentPhase_language]

/-- When the sanitised context is empty, `classifyMessage` coincides with
the enrichment-free classification pipeline. -/
theorem classify_sanitize_nil (llm : LLMOutcome) (url message : List Char)
    (ctxOpt : Option (List Turn)) (h : sanitizeCtx ctxOpt = []) :
    classifyMessage llm url message ctxOpt = pureClassify llm message := by
  unfold classifyMessage pureClassify
  by_cases hmsg : message = []
  · rw [if_pos hmsg, if_pos hmsg]
  · rw [if_neg hmsg, if_neg hmsg]
    cases llm with
    | fail => rfl
    | ok content =>
      simp only []
      cases hp : parseOrExtract content with
      | none => rfl
      | some v =>
        simp only []
        by_cases hv : validClassification v = true
        · rw [if_pos hv, if_pos hv, h]
          rfl
        · rw [if_neg hv, if_neg hv]

/-- Claim C10: an absent or empty context makes the resolver the
identity — `classifyMessage` returns the enrichment-free parse of the
classifier output unchanged, with no intent inheritance, no new-request
reclassification, no tracking or returns-website adjustment and no
backfill — and, for every context whatsoever, resolution never modifies
the language field. -/
theorem claim_C10_empty_context_identity (llm : LLMOutcome) (url message : List Char)
    (c : ClassifiedMessage) (ctx : List Turn) :
    classifyMessage llm url message none = pureClassify llm message
    ∧ classifyMessage llm url message (some []) = pureClassify llm message
    ∧ enrichClassification url c [] = c
    ∧ (enrichClassification url c ctx).language = c.language :=
  ⟨classify_sanitize_nil llm url message none rfl,
   classify_sanitize_nil llm url message (some []) rfl,
   rfl,
   enrich_language url c ctx⟩
